import Mathlib

/- Verification of the Scouted TFT data pipeline.

   The definitions below are a shallow embedding of the string- and
   list-processing code of src/lib/api.ts and src/scripts/app.js.
   JavaScript strings are modelled as Lean strings (with the scanners
   working on lists of characters), JavaScript numbers occurring in
   game data as exact rationals represented by an unreduced pair of
   integers (every value exercised here is integral, where double
   arithmetic is exact; integral fields such as costs, tiers and unit
   thresholds are modelled directly as Int), and absent (undefined or
   null) record fields as Option. JavaScript regular-expression
   replaces are modelled by explicit left-to-right scanners that
   mirror the global-replace walk of the corresponding pattern. -/

namespace Scouted

/-- JavaScript number modelled as an unreduced fraction of integers.
All constructions below keep the denominator positive. -/
structure JSNum where
  num : Int
  den : Int
deriving DecidableEq, Repr

/-- Embed an integer as a JavaScript number. -/
def JSNum.ofInt (n : Int) : JSNum := ⟨n, 1⟩

instance (n : Nat) : OfNat JSNum n := ⟨JSNum.ofInt n⟩

/-- Multiplication of JavaScript numbers (exact on the values used here). -/
def JSNum.mul (a b : JSNum) : JSNum := ⟨a.num * b.num, a.den * b.den⟩

/-- The test n percent 1 equals 0, i.e. Number.isInteger for our values. -/
def JSNum.isInt (a : JSNum) : Bool := a.num % a.den == 0

/-- Decimal digit character. Arguments are always below ten. -/
def digitCh (d : Nat) : Char :=
  match d with
  | 0 => '0' | 1 => '1' | 2 => '2' | 3 => '3' | 4 => '4'
  | 5 => '5' | 6 => '6' | 7 => '7' | 8 => '8' | _ => '9'

/-- Decimal digits of a natural number, fuel-indexed (the fuel used by
jsNatToString always suffices). -/
def natToCharsAux : Nat → Nat → List Char → List Char
  | 0, _, acc => acc
  | fuel + 1, n, acc =>
    if n < 10 then digitCh n :: acc
    else natToCharsAux fuel (n / 10) (digitCh (n % 10) :: acc)

/-- Decimal rendering of a natural number, as the JavaScript String
conversion produces for integral doubles. -/
def jsNatToString (n : Nat) : String := ⟨natToCharsAux (n + 1) n []⟩

/-- Decimal rendering of an integer (JavaScript String conversion of an
integral double). -/
def jsIntToString (i : Int) : String :=
  if i < 0 then "-" ++ jsNatToString i.natAbs else jsNatToString i.natAbs

/-- Whitespace test for the JavaScript regex class backslash-s (the
characters relevant to this data: space, tab, line and form feeds,
carriage return, vertical tab). -/
def jsIsSpace (c : Char) : Bool :=
  c == ' ' || c == '\t' || c == '\n' || c == '\r' ||
  c == Char.ofNat 11 || c == Char.ofNat 12

/-- Word character test for the JavaScript regex class backslash-w. -/
def isWordChar (c : Char) : Bool := c.isAlpha || c.isDigit || c == '_'

/-- Lowercasing of a character list (String.prototype.toLowerCase on the
ASCII data processed here). -/
def lowerL (l : List Char) : List Char := l.map Char.toLower

/-- Substring test, the semantics of String.prototype.includes. -/
def containsL (s pat : List Char) : Bool :=
  s.tails.any (fun t => pat.isPrefixOf t)

/-- Case-insensitive substring test. -/
def containsCIL (s pat : List Char) : Bool := containsL (lowerL s) (lowerL pat)

/-- Suffix test, the semantics of String.prototype.endsWith. -/
def endsL (s pat : List Char) : Bool := pat.reverse.isPrefixOf s.reverse

/-- Case-insensitive prefix test: the pattern matches at the head of the
text ignoring case. -/
def ciStarts (pat s : List Char) : Bool := lowerL (s.take pat.length) == lowerL pat

/-- Trim of leading and trailing whitespace (String.prototype.trim). -/
def jsTrim (l : List Char) : List Char :=
  ((l.dropWhile jsIsSpace).reverse.dropWhile jsIsSpace).reverse

/-- Left-to-right global regex-replace scanner. At each position the
argument tryFn receives the previous character of the original text
(used for word-boundary tests) and the remaining text; a match returns
the replacement together with the number of characters consumed (always
at least one for the patterns modelled here). Unmatched characters are
copied verbatim, as a JavaScript global replace does. -/
def scanRepF (tryFn : Option Char → List Char → Option (List Char × Nat)) :
    Nat → Option Char → List Char → List Char
  | 0, _, l => l
  | _ + 1, _, [] => []
  | fuel + 1, prev, c :: rest =>
    match tryFn prev (c :: rest) with
    | none => c :: scanRepF tryFn fuel (some c) rest
    | some (rep, k) =>
      let used := max k 1
      rep ++ scanRepF tryFn fuel ((c :: rest).take used).getLast?
        (List.drop used (c :: rest))

/-- The scanner with the fuel set to the text length, which every
match (consuming at least one character) respects. -/
def scanRep (tryFn : Option Char → List Char → Option (List Char × Nat))
    (prev : Option Char) (l : List Char) : List Char :=
  scanRepF tryFn l.length prev l

/-- Case-insensitive suffix test. -/
def ciEndsL (s pat : List Char) : Bool := endsL (lowerL s) (lowerL pat)

/-- Substring test on strings (String.prototype.includes). -/
def containsS (s pat : String) : Bool := containsL s.toList pat.toList

/-- Anchored startsWith test on strings. -/
def startsS (s pat : String) : Bool := pat.toList.isPrefixOf s.toList

/-- Membership of a character in a string (the includes test used for
the underscore check of the set selector). -/
def jsIncludesChar (s : String) (c : Char) : Bool := s.toList.contains c

/-- Replace the first occurrence of a plain-string pattern, the
semantics of String.prototype.replace with a string argument. -/
def replaceFirstAux (pat rep : List Char) : List Char → List Char
  | [] => []
  | c :: rest =>
    if pat.isPrefixOf (c :: rest) then rep ++ (c :: rest).drop pat.length
    else c :: replaceFirstAux pat rep rest

def replaceFirstL (s pat rep : List Char) : List Char :=
  if pat.isEmpty then rep ++ s else replaceFirstAux pat rep s

/-- Base URL of the Community Dragon asset mirror (api.ts line 14). -/
def CDRAGON_BASE : String := "https://raw.communitydragon.org/latest"

/-- Conversion of cdragon asset paths to full URLs (api.ts assetUrl):
falsy input gives the empty string, otherwise the path is lowercased,
the first occurrences of .dds and of .tex are rewritten to .png, and
the asset base is prefixed. -/
def assetUrl (path : Option String) : String :=
  match path with
  | none => ""
  | some p =>
    if p == "" then ""
    else
      CDRAGON_BASE ++ "/game/" ++
        String.mk (replaceFirstL
          (replaceFirstL (lowerL p.toList) ".dds".toList ".png".toList)
          ".tex".toList ".png".toList)

/-- An icon field value as the claim describes it: empty, or a URL
under the fixed asset base. -/
def iconUnderBase (s : String) : Prop :=
  s = "" ∨ startsS s (CDRAGON_BASE ++ "/game/") = true

/-- Tester for the anchored patterns of the form TFT, a digit run and a
fixed tail (the regexes TFT backslash-d star underscore Armory and the
plus-quantified variants); needOne demands at least one digit. -/
def npcTFTDigitsTail (tail : List Char) (s : List Char) (needOne : Bool) : Bool :=
  if ciStarts "TFT".toList s then
    let r := s.drop 3
    let ds := r.takeWhile Char.isDigit
    (!needOne || !ds.isEmpty) && ciStarts tail (r.drop ds.length)
  else false

/-- The NPC_PATTERNS list of api.ts (lines 51-58), in source order: a
record whose api name matches any of these is never a playable
champion. -/
def npcPatternTest (api : List Char) : Bool :=
  ciStarts "TFT_Item".toList api ||
  npcTFTDigitsTail "_Armory".toList api false ||
  ciStarts "TFT_Assist".toList api ||
  containsCIL api "Voidling".toList ||
  ciEndsL api "Soldier".toList ||
  ciEndsL api "Invention".toList ||
  containsCIL api "Dummy".toList ||
  ciStarts "TFT_Krug".toList api ||
  ciStarts "TFT_Elder".toList api ||
  ciStarts "TFT_BlueGolem".toList api ||
  npcTFTDigitsTail "_Atakhan".toList api true ||
  npcTFTDigitsTail "_Freljord".toList api true ||
  containsCIL api "Scuttler".toList ||
  containsCIL api "Minion".toList ||
  ciEndsL api "Chest".toList ||
  containsCIL api "Tibbers".toList ||
  ciStarts "TFT5_Emblem".toList api ||
  npcTFTDigitsTail "_NPC".toList api true ||
  containsCIL api "Drone".toList

/-- One entry of the raw ability variables array. -/
structure RawVariable where
  name : String
  value : List JSNum
deriving DecidableEq, Repr

/-- Raw ability sub-record of a cdragon champion. -/
structure RawAbility where
  name : Option String
  desc : Option String
  icon : Option String
  vars : Option (List RawVariable)
deriving DecidableEq, Repr

/-- Raw stat block of a cdragon champion. -/
structure RawStats where
  hp : Option JSNum
  mana : Option JSNum
  initialMana : Option JSNum
  armor : Option JSNum
  magicResist : Option JSNum
  damage : Option JSNum
  attackSpeed : Option JSNum
  critChance : Option JSNum
  range : Option JSNum
deriving DecidableEq, Repr

/-- Raw champion record as consumed by parseCDragonChampions. Costs and
tiers are integral in this data and are modelled as integers. -/
structure RawChampion where
  name : Option String
  apiName : Option String
  characterId : Option String
  cost : Option Int
  tier : Option Int
  traits : Option (List String)
  ability : Option RawAbility
  stats : Option RawStats
  icon : Option String
  tileIcon : Option String
  squareIcon : Option String
deriving DecidableEq, Repr

/-- The effective cost of a raw record: cost, else tier, else 1
(api.ts line 61 and line 76). -/
def rawCost (c : RawChampion) : Int := c.cost.getD (c.tier.getD 1)

/-- The non-player filter isNPC (api.ts lines 60-68). -/
def isNPC (c : RawChampion) : Bool :=
  let cost := rawCost c
  if cost > 5 then true
  else
    let api := (c.apiName.getD (c.characterId.getD "")).toList
    if npcPatternTest api then true
    else if (c.traits.getD []).isEmpty && cost ≤ 1 then true
    else false

/-- The filter applied by parseCDragonChampions (api.ts line 74): the
name must be truthy and the record must not be an NPC. -/
def keepChampion (c : RawChampion) : Bool :=
  !((c.name.getD "") == "") && !isNPC c

/-- Parsed ability sub-record. -/
structure Ability where
  name : String
  desc : String
  icon : String
  vars : List (String × List JSNum)
deriving DecidableEq, Repr

/-- Parsed stat block. -/
structure Stats where
  hp : JSNum
  mana : JSNum
  initialMana : JSNum
  armor : JSNum
  magicResist : JSNum
  damage : JSNum
  attackSpeed : JSNum
  critChance : JSNum
  range : JSNum
deriving DecidableEq, Repr

/-- Parsed champion (the TFTChampion shape of types.ts). -/
structure TFTChampion where
  name : String
  championId : String
  cost : Int
  traits : List String
  ability : Ability
  stats : Stats
  icon : String
  tileIcon : String
  splashUrl : String
deriving DecidableEq, Repr

/-- Object.fromEntries over a key-value list: a later entry with the
same key overwrites the value but keeps the first insertion position. -/
def setEntry {α : Type} : List (String × α) → String → α → List (String × α)
  | [], k, v => [(k, v)]
  | (k0, v0) :: rest, k, v =>
    if k0 == k then (k0, v) :: rest else (k0, v0) :: setEntry rest k v

def jsFromEntries {α : Type} (l : List (String × α)) : List (String × α) :=
  l.foldl (fun acc kv => setEntry acc kv.1 kv.2) []

/-- Clamp of the cost into the closed range 1 to 5 (api.ts line 80). -/
def clampCost (n : Int) : Int := min (max n 1) 5

/-- The per-record mapping of parseCDragonChampions (api.ts 75-107). -/
def parseChampion (c : RawChampion) : TFTChampion :=
  { name := c.name.getD ""
    championId := c.apiName.getD (c.characterId.getD "")
    cost := clampCost (rawCost c)
    traits := c.traits.getD []
    ability :=
      { name := (c.ability.bind (fun a => a.name)).getD ""
        desc := (c.ability.bind (fun a => a.desc)).getD ""
        icon := assetUrl (c.ability.bind (fun a => a.icon))
        vars :=
          match c.ability.bind (fun a => a.vars) with
          | some vs => jsFromEntries (vs.map (fun v => (v.name, v.value)))
          | none => [] }
    stats :=
      { hp := (c.stats.bind (fun s => s.hp)).getD 0
        mana := (c.stats.bind (fun s => s.mana)).getD 0
        initialMana := (c.stats.bind (fun s => s.initialMana)).getD 0
        armor := (c.stats.bind (fun s => s.armor)).getD 0
        magicResist := (c.stats.bind (fun s => s.magicResist)).getD 0
        damage := (c.stats.bind (fun s => s.damage)).getD 0
        attackSpeed := (c.stats.bind (fun s => s.attackSpeed)).getD 0
        critChance := (c.stats.bind (fun s => s.critChance)).getD ⟨1, 4⟩
        range := (c.stats.bind (fun s => s.range)).getD 1 }
    icon := assetUrl c.icon
    tileIcon := assetUrl c.tileIcon
    splashUrl := assetUrl c.squareIcon }

/-- String comparison standing in for localeCompare; it only influences
display order, never membership. -/
def jsCompareStrings (a b : String) : Int :=
  if a < b then -1 else if b < a then 1 else 0

/-- The JavaScript or of two numbers: the first unless it is zero. -/
def jsOrI (x y : Int) : Int := if x ≠ 0 then x else y

/-- Stable insertion of an element coming from later in the original
list: it goes before the first element it compares at most equal to. -/
def jsInsertCmp {α : Type} (cmp : α → α → Int) (x : α) : List α → List α
  | [] => [x]
  | y :: ys => if cmp x y ≤ 0 then x :: y :: ys else y :: jsInsertCmp cmp x ys

/-- Stable comparator sort modelling Array.prototype.sort. -/
def jsSortCmp {α : Type} (cmp : α → α → Int) : List α → List α
  | [] => []
  | x :: xs => jsInsertCmp cmp x (jsSortCmp cmp xs)

/-- Comparator of the champion sort (api.ts line 108: cost ascending,
then name). -/
def champCmp (a b : TFTChampion) : Int :=
  jsOrI (a.cost - b.cost) (jsCompareStrings a.name b.name)

/-- parseCDragonChampions (api.ts lines 72-109): filter, map, sort. -/
def parseCDragonChampions (raw : List RawChampion) : List TFTChampion :=
  jsSortCmp champCmp ((raw.filter keepChampion).map parseChampion)

/-- One candidate dataset revision of the setData array (number and
mutator tag, plus the declared display name). -/
structure SetCandidate where
  number : Option Int
  mutator : Option String
  name : Option String
deriving DecidableEq, Repr

/-- Number of a candidate with the nullish default 0 (api.ts line 493). -/
def numberOr0 (s : SetCandidate) : Int := s.number.getD 0

/-- Mutator tag with the nullish default of the empty string. -/
def mutatorStr (s : SetCandidate) : String := s.mutator.getD ""

/-- Maximum revision number across the candidates (api.ts line 493);
none models the minus-infinity of Math.max over an empty array, which
leaves no candidate selected. -/
def maxSetNumber (l : List SetCandidate) : Option Int := (l.map numberOr0).max?

/-- First selection predicate (api.ts lines 496-499): the mutator has
no underscore, or equals the standard tag TFTSet followed by the
maximum number. -/
def isStdA (m : Int) (s : SetCandidate) : Bool :=
  !(jsIncludesChar (mutatorStr s) '_') ||
    (mutatorStr s == "TFTSet" ++ jsIntToString m)

/-- Second selection predicate (api.ts lines 499-502). -/
def isStdB (m : Int) (s : SetCandidate) : Bool :=
  mutatorStr s == "TFTSet" ++ jsIntToString m

/-- The array-shaped branch of the set auto-detection in fetchAllData
(api.ts lines 491-502): take the candidates at the maximum revision
number, prefer a standard variant, else the standard tag, else the
first candidate. -/
def selectCurrentSet (l : List SetCandidate) : Option SetCandidate :=
  match maxSetNumber l with
  | none => none
  | some m =>
    let cands := l.filter (fun s => numberOr0 s == m)
    ((cands.find? (isStdA m)).orElse (fun _ => cands.find? (isStdB m))).orElse
      (fun _ => cands.head?)

/-- Raw trait effect record (breakpoint). Unit thresholds and style
tags are integral. -/
structure RawEffect where
  minUnits : Option Int
  maxUnits : Option Int
  style : Option Int
  vars : Option (List (String × JSNum))
deriving DecidableEq, Repr

/-- Raw trait record. -/
structure RawTrait where
  apiName : Option String
  name : Option String
  desc : Option String
  icon : Option String
  style : Option Int
  effects : Option (List RawEffect)
deriving DecidableEq, Repr

/-- Trait type enumeration of types.ts. -/
inductive TraitType where
  | origin
  | cls
  | unique
  | teamup
deriving DecidableEq, Repr

/-- Positive minimum-unit thresholds in record order (api.ts line 309). -/
def positiveBPs (t : RawTrait) : List Int :=
  (((t.effects.getD []).map (fun e => e.minUnits.getD 0)).filter
    (fun n => decide (0 < n)))

/-- Comparison against an optional value with the JavaScript semantics
that a comparison with undefined is false. -/
def jsLeOpt (o : Option Int) (k : Int) : Bool :=
  match o with
  | some v => decide (v ≤ k)
  | none => false

def jsGeOpt (o : Option Int) (k : Int) : Bool :=
  match o with
  | some v => decide (k ≤ v)
  | none => false

/-- classifyTraitType (api.ts lines 306-315). -/
def classifyTraitType (t : RawTrait) : TraitType :=
  let api := t.apiName.getD ""
  let bps := positiveBPs t
  if containsS api "Teamup" then .teamup
  else if bps.length ≤ 1 && jsLeOpt bps.head? 2 then .unique
  else if jsGeOpt bps.head? 3 then .origin
  else .cls

/-- Trait-type rule written from the amended specification text: teamup
on the marker; unique when there is exactly one positive threshold and
it is at most 2; origin when the first positive threshold in record
order is at least 3; class otherwise, in particular when there are no
positive thresholds. -/
def specTraitType (t : RawTrait) : TraitType :=
  if containsS (t.apiName.getD "") "Teamup" then .teamup
  else
    match positiveBPs t with
    | [] => .cls
    | [b] => if b ≤ 2 then .unique else if 3 ≤ b then .origin else .cls
    | b :: _ :: _ => if 3 ≤ b then .origin else .cls

/-- Item category enumeration of types.ts. -/
inductive ItemCategory where
  | component
  | completed
  | emblem
  | artifact
  | radiant
  | support
  | other
deriving DecidableEq, Repr

/-- The known component api names (api.ts lines 358-363). -/
def COMPONENT_APIS : List String :=
  ["TFT_Item_BFSword", "TFT_Item_RecurveBow", "TFT_Item_NeedlesslyLargeRod",
   "TFT_Item_TearOfTheGoddess", "TFT_Item_ChainVest", "TFT_Item_NegatronCloak",
   "TFT_Item_GiantsBelt", "TFT_Item_Spatula", "TFT_Item_SparringGloves",
   "TFT_Item_FryingPan"]

/-- The item category chain of parseSetItems (api.ts lines 384-404). -/
def itemCategory (name api desc : String) (composition : List String) :
    ItemCategory :=
  let isComponent := COMPONENT_APIS.contains api
  let isCompleted := !isComponent && composition.length == 2
  let isEmblem := containsS name "Emblem"
  let isArtifact := containsS api "Artifact"
  let isSupport := containsS desc "[Support item]"
  let isRadiant := startsS name "Radiant "
  if isComponent then .component
  else if isSupport then .support
  else if isEmblem then .emblem
  else if isArtifact then .artifact
  else if isRadiant then .radiant
  else if isCompleted then .completed
  else .other

/-- Category assignment written from the specification text: the first
predicate that holds in the order component, support, emblem, artifact,
radiant, completed, with other as the default. -/
def itemCategorySpecOrder (name api desc : String) (composition : List String) :
    ItemCategory :=
  let rules : List (Bool × ItemCategory) :=
    [(COMPONENT_APIS.contains api, .component),
     (containsS desc "[Support item]", .support),
     (containsS name "Emblem", .emblem),
     (containsS api "Artifact", .artifact),
     (startsS name "Radiant ", .radiant),
     (composition.length == 2, .completed)]
  match rules.find? (fun r => r.1) with
  | some r => r.2
  | none => .other

/-- Parsed trait effect (breakpoint) of types.ts, after the defaulting
of parseCDragonTraits (api.ts lines 321-326). -/
structure Effect where
  minUnits : Int
  maxUnits : Int
  style : Int
  vars : List (String × JSNum)
deriving DecidableEq, Repr

/-- Structured breakpoint row produced by the trait text resolver. -/
structure TraitDetailRow where
  style : Int
  minUnits : Int
  text : String
deriving DecidableEq, Repr

/-- Lightweight membership record of a champion inside a trait. -/
structure TraitMember where
  name : String
  icon : String
  id : String
deriving DecidableEq, Repr

/-- Parsed trait (the TFTTrait shape of types.ts). -/
structure TFTTrait where
  key : String
  name : String
  desc : String
  descDetails : List TraitDetailRow
  icon : String
  type : TraitType
  style : Int
  effects : List Effect
  champions : List TraitMember
deriving DecidableEq, Repr

/-- The champion-trait matching predicate of the linker (api.ts lines
529-531): exact display-name match, or the lowercased trait key
contains the lowercased, space-stripped trait name. -/
def traitMatches (tn : String) (t : TFTTrait) : Bool :=
  t.name == tn ||
    containsL (lowerL t.key.toList)
      ((lowerL tn.toList).filter (fun c => !(c == ' ')))

/-- Membership record built from a champion (tile icon preferred over
the icon when truthy). -/
def memberOf (c : TFTChampion) : TraitMember :=
  { name := c.name
    icon := if c.tileIcon == "" then c.icon else c.tileIcon
    id := c.championId }

/-- Presence test of a champion name in the member list (api.ts line
532 and line 544). -/
def hasMemberNamed (t : TFTTrait) (n : String) : Bool :=
  t.champions.any (fun m => m.name == n)

/-- One linking action (api.ts lines 529-535): find the first trait
matching the name and append the membership record unless the champion
is already recorded there. -/
def addChampToTrait (c : TFTChampion) (tn : String) :
    List TFTTrait → List TFTTrait
  | [] => []
  | t :: rest =>
    if traitMatches tn t then
      (if hasMemberNamed t c.name then t
       else { t with champions := t.champions ++ [memberOf c] }) :: rest
    else t :: addChampToTrait c tn rest

/-- The champion-to-trait linking loop (api.ts lines 527-536). -/
def linkChampTraits (champs : List TFTChampion) (ts : List TFTTrait) :
    List TFTTrait :=
  champs.foldl
    (fun acc c => c.traits.foldl (fun acc2 tn => addChampToTrait c tn acc2) acc)
    ts

/-- Trailing underscore-separated segment of a trait key (api.ts line
540: split on underscore and pop, with the empty-string default). -/
def lastSegment (key : String) : String := ((key.splitOn "_").getLast?).getD ""

/-- Global matches of the pattern of one uppercase letter followed by
one or more lowercase letters (api.ts line 541). -/
def capWordsAux : List Char → List (List Char)
  | [] => []
  | c :: rest =>
    if c.isUpper then
      let low := rest.takeWhile Char.isLower
      if low.isEmpty then capWordsAux rest
      else (c :: low) :: capWordsAux (rest.drop low.length)
    else capWordsAux rest
  termination_by l => l.length
  decreasing_by
    · simp
    · simp only [List.length_drop, List.length_cons]
      omega
    · simp

/-- Candidate champion-name fragments of a team-up trait. -/
def teamupCandidates (t : TFTTrait) : List String :=
  (capWordsAux (lastSegment t.key).toList).map String.mk

/-- One team-up linking action (api.ts lines 542-547): the first
champion whose name contains the fragment is appended unless already
recorded. -/
def addTeamupChamp (champs : List TFTChampion) (p : String) (t : TFTTrait) :
    TFTTrait :=
  match champs.find? (fun c => containsS c.name p) with
  | none => t
  | some c =>
    if hasMemberNamed t c.name then t
    else { t with champions := t.champions ++ [memberOf c] }

/-- Processing of one team-up trait over all its candidate fragments. -/
def processTeamup (champs : List TFTChampion) (t : TFTTrait) : TFTTrait :=
  (teamupCandidates t).foldl (fun acc p => addTeamupChamp champs p acc) t

/-- The per-trait step of the team-up linking loop (api.ts line 539):
only team-up traits with no members yet are processed. -/
def teamupStep (champs : List TFTChampion) (t : TFTTrait) : TFTTrait :=
  if t.type == .teamup && t.champions.isEmpty then processTeamup champs t else t

/-- The team-up linking loop (api.ts lines 539-548). -/
def linkTeamups (champs : List TFTChampion) (ts : List TFTTrait) :
    List TFTTrait :=
  ts.map (teamupStep champs)

/-- The complete linking stage of fetchAllData: champion-trait links,
then team-up links. -/
def linkAll (champs : List TFTChampion) (ts : List TFTTrait) : List TFTTrait :=
  linkTeamups champs (linkChampTraits champs ts)

/-- Extension relation between two traits: identity on the fields read
by the linker, with the member list only ever appended to. -/
def TraitExt (t u : TFTTrait) : Prop :=
  u.key = t.key ∧ u.name = t.name ∧ u.type = t.type ∧
  ∃ extra, u.champions = t.champions ++ extra

/-- Pointwise extension of trait lists. -/
def TraitsExt (ts us : List TFTTrait) : Prop := List.Forall₂ TraitExt ts us

/-- Member coverage of a champion and trait name: the first matching
trait, if any, already records the champion (so the linking action is
the identity). -/
def coveredB (c : TFTChampion) (tn : String) : List TFTTrait → Bool
  | [] => true
  | t :: rest =>
    if traitMatches tn t then hasMemberNamed t c.name else coveredB c tn rest

/-- Numeric value of a digit list. -/
def digitsToNat (ds : List Char) : Nat :=
  ds.foldl (fun n c => n * 10 + (c.toNat - '0'.toNat)) 0

/-- parseFloat on a literal consisting of digits with an optional
fractional part, as matched by the multiplication-token pattern. -/
def parseNumLit (l : List Char) : JSNum :=
  let ip := l.takeWhile Char.isDigit
  let rest := l.drop ip.length
  match rest with
  | '.' :: fr =>
    ⟨(digitsToNat ip : Int) * (10 : Int) ^ fr.length + (digitsToNat fr : Int),
     (10 : Int) ^ fr.length⟩
  | _ => ⟨(digitsToNat ip : Int), 1⟩

/-- Shape test for the numeral suffix of the multiplication token of
app.js (one or more digits with an optional dot and more digits,
anchored to the end). -/
def isNumLit (l : List Char) : Bool :=
  let ds := l.takeWhile Char.isDigit
  let rest := l.drop ds.length
  !ds.isEmpty &&
    (match rest with
     | [] => true
     | '.' :: fr => !fr.isEmpty && fr.all Char.isDigit
     | _ => false)

/-- Lazy split of a token at the earliest star whose suffix is a full
numeral and whose prefix is nonempty (the app.js multiplication match
with a lazy group, line 312). -/
def findStarSplitLazyAux (acc : List Char) : List Char → Option (List Char × List Char)
  | [] => none
  | c :: rest =>
    if c == '*' && !acc.isEmpty && isNumLit rest then some (acc.reverse, rest)
    else findStarSplitLazyAux (c :: acc) rest

def findStarSplitLazy (l : List Char) : Option (List Char × List Char) :=
  findStarSplitLazyAux [] l

/-- Star-value number formatting of app.js line 321: integral values
render bare; otherwise one decimal with a trailing dot-zero stripped.
The rounding matches toFixed, whose ties go toward positive infinity. -/
def fmtStar (n : JSNum) : String :=
  if n.num % n.den == 0 then jsIntToString (n.num / n.den)
  else
    let t : Int := Int.fdiv (20 * n.num + n.den) (2 * n.den)
    let m : Nat := t.natAbs
    let sign : String := if n.num < 0 then "-" else ""
    if m % 10 == 0 then sign ++ jsNatToString (m / 10)
    else sign ++ jsNatToString (m / 10) ++ "." ++ jsNatToString (m % 10)

/-- The displayed per-tier values: the entries of the stored sequence
at the star-level indices 1, 2 and 3, each multiplied and formatted,
with absent entries dropped (app.js lines 318-322). -/
def starVals (vals : List JSNum) (mult : JSNum) : List String :=
  ([vals[1]?, vals[2]?, vals[3]?].filterMap id).map
    (fun v => fmtStar (v.mul mult))

/-- The fixed tier-color sequence of app.js line 327. -/
def starColorsApp : List String := ["#a67c52", "#94a3b8", "#e6a030"]

/-- One colorized tier value span (app.js line 329). -/
def starSpan (color v : String) : String :=
  "<span style=\"color:" ++ color ++ ";font-weight:600\">" ++ v ++ "</span>"

/-- The muted slash separator (app.js line 330). -/
def mutedSlash : String := "<span style=\"color:var(--muted)\">/</span>"

/-- The colorized star-level breakdown of a list of display values. -/
def colorJoin (vs : List String) : String :=
  String.intercalate mutedSlash
    (vs.enum.map (fun iv => starSpan (starColorsApp.getD iv.1 "undefined") iv.2))

/-- The rendering of one resolved token (app.js lines 316-331): no
displayable tiers give the question mark; all-equal tiers collapse to
the single uncolored value; differing tiers render colorized. -/
def renderStarToken (vals : List JSNum) (mult : JSNum) : String :=
  match starVals vals mult with
  | [] => "?"
  | s :: rest => if rest.all (fun v => v == s) then s else colorJoin (s :: rest)

/-- Exact key lookup in the ability variables object. -/
def lookupExact (vars : List (String × List JSNum)) (k : List Char) :
    Option (List JSNum) :=
  (vars.find? (fun kv => kv.1.toList == k)).map (fun kv => kv.2)

/-- Case-insensitive lookup through the varKeysLower map of app.js
lines 198-200: the last key with the given lowercase form wins, and an
empty-string key is falsy and rejected. -/
def lookupCI (vars : List (String × List JSNum)) (k : List Char) :
    Option (List JSNum) :=
  match (vars.filter (fun kv => lowerL kv.1.toList == lowerL k)).getLast? with
  | none => none
  | some kv => if kv.1 == "" then none else some kv.2

/-- The stacked modifier lead-ins stripped by app.js line 215, in the
alternation order of the pattern. -/
def modPres : List (List Char) :=
  ["Modified", "Total", "Reduced", "Bonus", "FirstCast", "SecondCast",
   "ThirdCast"].map String.toList

/-- The stripping loop of app.js lines 216-219 (fuel-indexed; each
round removes a nonempty lead-in, so the token length suffices). -/
def stripModPres : Nat → List Char → List Char
  | 0, t => t
  | fuel + 1, t =>
    match modPres.find? (fun p => p.isPrefixOf t) with
    | some p => stripModPres fuel (t.drop p.length)
    | none => t

/-- The stat-type lead-ins tried by app.js line 226. -/
def statPres : List (List Char) :=
  ["AP", "AD", "Flat", "Base", "Percent"].map String.toList

/-- Replace the first case-insensitive occurrence of a pattern (the
replace with an i-flagged regex and no g flag of app.js line 238). -/
def replaceFirstCIAux (pat rep : List Char) : List Char → List Char
  | [] => []
  | c :: rest =>
    if ciStarts pat (c :: rest) then rep ++ (c :: rest).drop pat.length
    else c :: replaceFirstCIAux pat rep rest

/-- Split at the earliest underscore with a nonempty lazy head group
and a word-character tail group reaching the end (the pattern of app.js
line 246). -/
def underscoreSplitAux (acc : List Char) : List Char → Option (List Char × List Char)
  | [] => none
  | c :: rest =>
    if c == '_' && !acc.isEmpty && !rest.isEmpty && rest.all isWordChar then
      some (acc.reverse, rest)
    else underscoreSplitAux (c :: acc) rest

def underscoreSplit (l : List Char) : Option (List Char × List Char) :=
  underscoreSplitAux [] l

/-- The longest-containment fold of app.js lines 264-276, with its
else-if structure and strict improvement, and the final falsy-key
check of line 276. -/
def bestContain (vars : List (String × List JSNum)) (search : List Char) :
    Option (List JSNum) :=
  let r := vars.foldl
    (fun (best : Option (String × List JSNum) × Nat) kv =>
      let vkl := lowerL kv.1.toList
      if containsL search vkl && decide (best.2 < vkl.length) then
        (some kv, vkl.length)
      else if containsL vkl search && decide (best.2 < search.length) then
        (some kv, search.length)
      else best)
    ((none, 0) : Option (String × List JSNum) × Nat)
  match r.1 with
  | none => none
  | some kv => if kv.1 == "" then none else some kv.2

/-- First camel-case pass of app.js line 282: a space between a
lowercase letter and a following uppercase letter. -/
def camelPass1 : List Char → List Char
  | [] => []
  | [c] => [c]
  | a :: b :: rest =>
    if a.isLower && b.isUpper then a :: ' ' :: camelPass1 (b :: rest)
    else a :: camelPass1 (b :: rest)

/-- Second camel-case pass of app.js line 283: a space before the last
letter of an uppercase run that is followed by a lowercase letter. -/
def tryCamel2 (_ : Option Char) (s : List Char) : Option (List Char × Nat) :=
  let run := s.takeWhile Char.isUpper
  if 2 ≤ run.length then
    match s.drop run.length with
    | c :: _ =>
      if c.isLower then
        some (run.dropLast ++ ' ' :: run.drop (run.length - 1) ++ [c],
          run.length + 1)
      else none
    | [] => none
  else none

def camelPass2 (s : List Char) : List Char := scanRep tryCamel2 none s

/-- Split on whitespace runs with the JavaScript split semantics (an
empty leading or trailing segment is kept). -/
def splitWSAuxF : Nat → List Char → List Char → List (List Char)
  | 0, _, acc => [acc.reverse]
  | _ + 1, [], acc => [acc.reverse]
  | fuel + 1, c :: rest, acc =>
    if jsIsSpace c then
      acc.reverse :: splitWSAuxF fuel (rest.dropWhile jsIsSpace) []
    else splitWSAuxF fuel rest (c :: acc)

def splitWSAux (l acc : List Char) : List (List Char) :=
  splitWSAuxF l.length l acc

/-- The word decomposition of app.js lines 282-284 and 289-291. -/
def camelWords (s : List Char) : List (List Char) :=
  splitWSAux (lowerL (camelPass2 (camelPass1 s))) []

/-- The word-overlap fold of app.js lines 286-301: the key sharing the
most words wins on strict improvement; at least two shared words and a
truthy key are required. -/
def bestWordOverlap (vars : List (String × List JSNum))
    (words : List (List Char)) : Option (List JSNum) :=
  let r := vars.foldl
    (fun (best : Option (String × List JSNum) × Nat) kv =>
      let vWords := camelWords kv.1.toList
      let overlap := words.foldl
        (fun n w => if vWords.contains w then n + 1 else n) 0
      if best.2 < overlap then (some kv, overlap) else best)
    ((none, 0) : Option (String × List JSNum) × Nat)
  if 2 ≤ r.2 then
    match r.1 with
    | none => none
    | some kv => if kv.1 == "" then none else some kv.2
  else none

/-- The smart variable lookup resolveVar of app.js lines 208-305, as
the ordered fallback chain: exact, case-insensitive, modifier
stripping with stat-type lead-ins, Damage infixes and underscore
rearrangement, suffix containment, longest substring containment, and
camel-case word overlap. -/
def resolveVar (vars : List (String × List JSNum)) (token : String) :
    Option (List JSNum) :=
  let tk := token.toList
  match lookupExact vars tk with
  | some v => some v
  | none =>
  match lookupCI vars tk with
  | some v => some v
  | none =>
    let stripped := stripModPres tk.length tk
    let strippedOk := !stripped.isEmpty && !(stripped == tk)
    let step234 : Option (List JSNum) :=
      if strippedOk then
        (lookupExact vars stripped).orElse (fun _ =>
        (lookupCI vars stripped).orElse (fun _ =>
        (statPres.findSome? (fun p =>
           (lookupExact vars (p ++ stripped)).orElse (fun _ =>
            lookupCI vars (p ++ stripped)))).orElse (fun _ =>
        (if containsCIL stripped "Damage".toList then
           statPres.findSome? (fun p =>
             let infixed := replaceFirstCIAux "Damage".toList
               (p ++ "Damage".toList) stripped
             (lookupExact vars infixed).orElse (fun _ => lookupCI vars infixed))
         else none).orElse (fun _ =>
        match underscoreSplit stripped with
        | some pr =>
          let re := pr.2 ++ pr.1
          (lookupExact vars re).orElse (fun _ => lookupCI vars re)
        | none => none))))
      else none
    match step234 with
    | some v => some v
    | none =>
      let search := lowerL (if strippedOk then stripped else tk)
      match vars.find? (fun kv =>
          endsL (lowerL kv.1.toList) search ||
          endsL search (lowerL kv.1.toList)) with
      | some kv => some kv.2
      | none =>
        match bestContain vars search with
        | some v => some v
        | none =>
          let words := camelWords (if strippedOk then stripped else tk)
          if 2 ≤ words.length then bestWordOverlap vars words else none

/-- Match attempt of the token pattern (an at sign, one or more
non-at characters, an at sign) at the current position. -/
def tryAtToken (f : List Char → List Char) : List Char → Option (List Char × Nat)
  | [] => none
  | c :: rest =>
    if c == '@' then
      let tok := rest.takeWhile (fun x => !(x == '@'))
      match rest.dropWhile (fun x => !(x == '@')) with
      | _ :: _ => if tok.isEmpty then none else some (f tok, tok.length + 2)
      | [] => none
    else none

/-- Global replace of the token pattern, with the callback f. -/
def replaceTokens (f : List Char → List Char) (s : List Char) : List Char :=
  scanRep (fun _ t => tryAtToken f t) none s

/-- The token callback of the ability description replacement (app.js
lines 308-331): runtime-property tokens vanish, a multiplication
suffix is parsed, the variable is resolved through resolveVar, and the
star values are rendered. -/
def abilityToken (vars : List (String × List JSNum)) (tok : List Char) :
    List Char :=
  if ("TFTUnitProperty".toList).isPrefixOf tok then []
  else
    let split := findStarSplitLazy tok
    let varName := match split with
      | some pr => pr.1
      | none => tok
    let mult := match split with
      | some pr => parseNumLit pr.2
      | none => JSNum.ofInt 1
    match resolveVar vars (String.mk varName) with
    | none => "?".toList
    | some vals => (renderStarToken vals mult).toList

/-- The ability description token replacement of showChampionDetails
(app.js lines 308-331). -/
def abilityReplaceTokens (desc : String) (vars : List (String × List JSNum)) :
    String :=
  String.mk (replaceTokens (abilityToken vars) desc.toList)

/-- Number formatting of api.ts formatNum (lines 114-119): integers
render bare, other values round to at most two decimals with trailing
zeros dropped; rounding ties go toward positive infinity as in
Math.round. -/
def formatNum (n : JSNum) : String :=
  if n.num % n.den == 0 then jsIntToString (n.num / n.den)
  else
    let t : Int := Int.fdiv (200 * n.num + n.den) (2 * n.den)
    let m : Nat := t.natAbs
    let sign : String := if t < 0 then "-" else ""
    if m % 100 == 0 then sign ++ jsNatToString (m / 100)
    else if m % 10 == 0 then
      sign ++ jsNatToString (m / 100) ++ "." ++ jsNatToString (m / 10 % 10)
    else
      sign ++ jsNatToString (m / 100) ++ "." ++
        (if m % 100 < 10 then "0" else "") ++ jsNatToString (m % 100)

/-- Greedy split of a token at the last star whose suffix is all
digits and whose prefix is nonempty (the multiplication pattern of
api.ts line 131, with greedy first group). -/
def findStarSplitGreedy (l : List Char) : Option (List Char × List Char) :=
  let rev := l.reverse
  let ds := rev.takeWhile Char.isDigit
  if ds.isEmpty then none
  else
    match rev.drop ds.length with
    | c :: restRev =>
      if c == '*' && !restRev.isEmpty then some (restRev.reverse, ds.reverse)
      else none
    | [] => none

/-- Scalar variable lookup in a trait effect. -/
def lookupVarApi (vars : List (String × JSNum)) (k : List Char) : Option JSNum :=
  (vars.find? (fun kv => kv.1.toList == k)).map (fun kv => kv.2)

/-- The token callback of resolveVarsInText (api.ts lines 125-141):
breakpoint bounds, runtime-property suppression, the multiplication
form, and the simple lookup, with the question mark fallback. -/
def resolveTokenApi (eff : Effect) (tok : List Char) : List Char :=
  if tok == "MinUnits".toList then (jsIntToString eff.minUnits).toList
  else if tok == "MaxUnits".toList then (jsIntToString eff.maxUnits).toList
  else if ("TFTUnitProperty".toList).isPrefixOf tok then []
  else
    match findStarSplitGreedy tok with
    | some pr =>
      match lookupVarApi eff.vars pr.1 with
      | some v => (formatNum (v.mul (JSNum.ofInt (digitsToNat pr.2)))).toList
      | none => ['?']
    | none =>
      match lookupVarApi eff.vars tok with
      | some v => (formatNum v).toList
      | none => ['?']

/-- resolveVarsInText (api.ts lines 124-142) on character lists. -/
def resolveVarsInTextL (text : List Char) (eff : Effect) : List Char :=
  replaceTokens (resolveTokenApi eff) text

/-- The icon label map of api.ts lines 145-157. -/
def ICON_LABELS : List (String × String) :=
  [("scaleAD", "AD"), ("scaleAP", "AP"), ("scaleAS", "Attack Speed"),
   ("scaleArmor", "Armor"), ("scaleCrit", "Crit Chance"),
   ("scaleCritMult", "Crit Damage"), ("scaleDA", "Damage Amp"),
   ("scaleDR", "Damage Reduction"), ("scaleHealth", "Health"),
   ("scaleMR", "Magic Resist"), ("scaleSV", "Omnivamp")]

/-- Icon token pass of cleanLine: a percent-i-colon opening, a nonempty
run without percent signs, and a closing percent sign, replaced by the
label or the empty string. -/
def tryIcon (_ : Option Char) (s : List Char) : Option (List Char × Nat) :=
  if ("%i:".toList).isPrefixOf s then
    let rest := s.drop 3
    let mid := rest.takeWhile (fun c => !(c == '%'))
    if mid.isEmpty then none
    else
      match rest.dropWhile (fun c => !(c == '%')) with
      | _ :: _ =>
        some ((((ICON_LABELS.find? (fun kv => kv.1.toList == mid)).map
          (fun kv => kv.2)).getD "").toList, mid.length + 4)
      | [] => none
  else none

/-- Non-breaking-space entity pass of cleanLine. -/
def tryNbsp (_ : Option Char) (s : List Char) : Option (List Char × Nat) :=
  if ("&nbsp;".toList).isPrefixOf s then some ([' '], 6) else none

/-- Tag-stripping pass of cleanLine: an opening angle bracket, a run
without closing brackets, and the closing bracket, removed. -/
def tryTag (_ : Option Char) (s : List Char) : Option (List Char × Nat) :=
  match s with
  | c :: rest =>
    if c == '<' then
      let mid := rest.takeWhile (fun x => !(x == '>'))
      match rest.dropWhile (fun x => !(x == '>')) with
      | _ :: _ => some ([], mid.length + 2)
      | [] => none
    else none
  | [] => none

/-- Question-parenthesis artifact pass of cleanLine. -/
def tryParenQ (_ : Option Char) (s : List Char) : Option (List Char × Nat) :=
  if ("(?)".toList).isPrefixOf s then some ([], 3) else none

/-- Empty-parenthesis artifact pass of cleanLine: an opening
parenthesis, whitespace, and a closing parenthesis, removed. -/
def tryParenEmpty (_ : Option Char) (s : List Char) : Option (List Char × Nat) :=
  match s with
  | c :: rest =>
    if c == '(' then
      let ws := rest.takeWhile jsIsSpace
      match rest.dropWhile jsIsSpace with
      | d :: _ => if d == ')' then some ([], ws.length + 2) else none
      | [] => none
    else none
  | [] => none

/-- Whitespace-before-comma pass of cleanLine: a whitespace run
followed by a comma collapses to the comma. -/
def tryWsComma (_ : Option Char) (s : List Char) : Option (List Char × Nat) :=
  let run := s.takeWhile jsIsSpace
  if run.isEmpty then none
  else
    match s.dropWhile jsIsSpace with
    | d :: _ => if d == ',' then some ([','], run.length + 1) else none
    | [] => none

/-- Duplicate-whitespace pass of cleanLine: a run of two or more
whitespace characters collapses to one space. -/
def tryWsCollapse (_ : Option Char) (s : List Char) : Option (List Char × Nat) :=
  let run := s.takeWhile jsIsSpace
  if 2 ≤ run.length then some ([' '], run.length) else none

/-- cleanLine (api.ts lines 162-172): icon labels, entity and tag
stripping, parenthesis artifacts, comma spacing, whitespace collapse,
and a final trim. -/
def cleanLine (s : List Char) : List Char :=
  jsTrim (scanRep tryWsCollapse none
    (scanRep tryWsComma none
      (scanRep tryParenEmpty none
        (scanRep tryParenQ none
          (scanRep tryTag none
            (scanRep tryNbsp none
              (scanRep tryIcon none s)))))))

/-- isGarbageLine (api.ts lines 177-182): empty lines, bare labels
with no alphabetic tail, and lines without letters not opening a
parenthetical. -/
def isGarbageLine (s : List Char) : Bool :=
  if s.isEmpty then true
  else
    let pre := s.takeWhile (fun c => !(c == ':'))
    let labelGarbage :=
      !pre.isEmpty &&
        (match s.dropWhile (fun c => !(c == ':')) with
         | _ :: rest => rest.all (fun c => !c.isAlpha)
         | [] => false)
    if labelGarbage then true
    else if !(s.any Char.isAlpha) && !(("(".toList).isPrefixOf s) then true
    else false

/-- Adjacent-whitespace detector used to state the whitespace
normalization hypothesis. -/
def hasDoubleWS : List Char → Bool
  | a :: b :: rest => (jsIsSpace a && jsIsSpace b) || hasDoubleWS (b :: rest)
  | _ => false

/-- Word-character test on an optional character (absent characters
are non-word, as at the ends of the subject string). -/
def isWordO : Option Char → Bool
  | some c => isWordChar c
  | none => false

/-- Parse of a break tag (the case-insensitive pattern of an opening
angle bracket, b, r, whitespace, an optional slash and the closing
bracket), returning the consumed length. -/
def parseBrTag (s : List Char) : Option Nat :=
  if ciStarts "<br".toList s then
    let rest := s.drop 3
    let ws := rest.takeWhile jsIsSpace
    match rest.drop ws.length with
    | c :: d :: _ =>
      if c == '/' && d == '>' then some (3 + ws.length + 2)
      else if c == '>' then some (3 + ws.length + 1)
      else none
    | [c] => if c == '>' then some (3 + ws.length + 1) else none
    | [] => none
  else none

/-- Split on break tags (the split of api.ts line 235), with the
JavaScript split semantics for empty segments. -/
def splitBrF : Nat → List Char → List Char → List (List Char)
  | 0, s, acc => [acc.reverse ++ s]
  | _ + 1, [], acc => [acc.reverse]
  | fuel + 1, c :: rest, acc =>
    match parseBrTag (c :: rest) with
    | some k => acc.reverse :: splitBrF fuel (List.drop k (c :: rest)) []
    | none => splitBrF fuel rest (c :: acc)

def splitBr (s : List Char) : List (List Char) := splitBrF s.length s []

/-- One break-tag group: the tag and its trailing whitespace. -/
def parseBrGroup (s : List Char) : Option Nat :=
  match parseBrTag s with
  | some k => some (k + ((s.drop k).takeWhile jsIsSpace).length)
  | none => none

/-- Count of consecutive break-tag groups and their total length. -/
def countBrGroups : Nat → List Char → Nat × Nat
  | 0, _ => (0, 0)
  | fuel + 1, s =>
    match parseBrGroup s with
    | some k =>
      let r := countBrGroups fuel (s.drop (max k 1))
      (r.1 + 1, max k 1 + r.2)
    | none => (0, 0)

/-- Collapse of three or more consecutive break groups into a double
break (api.ts line 238). -/
def tryBrRun (_ : Option Char) (s : List Char) : Option (List Char × Nat) :=
  let r := countBrGroups s.length s
  if 3 ≤ r.1 then some ("<br><br>".toList, r.2) else none

/-- Removal of leading break groups (api.ts line 239, first replace). -/
def stripLeadBr (s : List Char) : List Char :=
  let r := countBrGroups s.length s
  if 1 ≤ r.1 then s.drop r.2 else s

/-- Test that a string consists entirely of break groups. -/
def isAllBrGroups (s : List Char) : Bool :=
  let r := countBrGroups s.length s
  decide (1 ≤ r.1) && r.2 == s.length

/-- Removal of trailing break groups (api.ts line 239, second
replace): the earliest position whose suffix is entirely groups. -/
def stripTrailBr : List Char → List Char
  | [] => []
  | c :: rest => if isAllBrGroups (c :: rest) then [] else c :: stripTrailBr rest

/-- Rules-block suppression of api.ts line 199: a rules element whose
body holds a runtime unit-property token is removed whole. -/
def tryRules (_ : Option Char) (s : List Char) : Option (List Char × Nat) :=
  if ciStarts "<rules>".toList s then
    let rest := s.drop 7
    let mid := rest.takeWhile (fun c => !(c == '<'))
    let tail := rest.drop mid.length
    if containsCIL mid ("@TFTUnitProperty".toList) &&
        ciStarts "</rules>".toList tail then
      some ([], 7 + mid.length + 8)
    else none
  else none

/-- Unit-property line suppression of api.ts line 200: the longest
in-line context around a runtime token up to the following at sign is
removed; the leading context is maximal (greedy) and falls back to
earlier occurrences. -/
def tryUnitLine (_ : Option Char) (s : List Char) : Option (List Char × Nat) :=
  let run := s.takeWhile (fun c => !(c == '<') && !(c == '\n'))
  let lit := "@TFTUnitProperty".toList
  let cands := ((List.range (run.length + 1)).filter
    (fun j => ciStarts lit (s.drop j))).reverse
  cands.findSome? (fun j =>
    let after := s.drop (j + 16)
    let nonAt := after.takeWhile (fun c => !(c == '@'))
    match after.dropWhile (fun c => !(c == '@')) with
    | _ :: rest2 =>
      let trailing := rest2.takeWhile (fun c => !(c == '<') && !(c == '\n'))
      some ([], j + 16 + nonAt.length + 1 + trailing.length)
    | [] => none)

/-- Current-stats label suppression of api.ts line 201. -/
def tryCurrentLabel (_ : Option Char) (s : List Char) : Option (List Char × Nat) :=
  if ciStarts "Current ".toList s then
    let rest := s.drop 8
    let altLen : Option Nat :=
      if ciStarts "Bonus Stats".toList rest then some 11
      else if ciStarts "Stats".toList rest then some 5
      else if ciStarts "Serpents".toList rest then some 8
      else none
    match altLen with
    | some al =>
      let after := rest.drop al
      let ws := after.takeWhile jsIsSpace
      let colon :=
        match after.drop ws.length with
        | c :: _ => if c == ':' then 1 else 0
        | [] => 0
      some ([], 8 + al + ws.length + colon)
    | none => none
  else none

/-- stripLeadingUnits of api.ts lines 204-206: a leading
parenthesized unit count, a leading comma, and surrounding whitespace
are removed from a detail row. -/
def stripLeadingUnits (s : List Char) : List Char :=
  let s1 :=
    match s with
    | c :: rest =>
      if c == '(' then
        let ds := rest.takeWhile Char.isDigit
        if ds.isEmpty then s
        else
          match rest.drop ds.length with
          | d :: rest2 => if d == ')' then rest2.dropWhile jsIsSpace else s
          | [] => s
      else s
    | [] => s
  let s2 :=
    match s1 with
    | c :: rest => if c == ',' then rest.dropWhile jsIsSpace else s1
    | [] => s1
  jsTrim s2

/-- Scan to the nearest case-insensitive closing tag with no line
break in between (the lazy dot of the expandRow and row patterns does
not cross lines). -/
def scanCloseF (close : List Char) : Nat → List Char → List Char →
    Option (List Char × List Char)
  | 0, _, _ => none
  | _ + 1, [], _ => none
  | fuel + 1, c :: rest, acc =>
    if ciStarts close (c :: rest) then
      some (acc.reverse, (c :: rest).drop close.length)
    else if c == '\n' then none
    else scanCloseF close fuel rest (c :: acc)

/-- Extraction of expandRow templates (api.ts lines 209-217): each
template instantiates once per effect; empty resolutions are dropped;
the markup is removed from the description. -/
def expandAuxF (effects : List Effect) : Nat → List Char →
    List Char × List TraitDetailRow
  | 0, s => (s, [])
  | _ + 1, [] => ([], [])
  | fuel + 1, c :: rest =>
    if ciStarts "<expandRow>".toList (c :: rest) then
      match scanCloseF "</expandRow>".toList (c :: rest).length
          ((c :: rest).drop 11) [] with
      | some pr =>
        let rows := effects.filterMap (fun e =>
          let resolved := stripLeadingUnits (cleanLine (resolveVarsInTextL pr.1 e))
          if resolved.isEmpty then none
          else some ⟨e.style, e.minUnits, String.mk resolved⟩)
        let r := expandAuxF effects fuel pr.2
        (r.1, rows ++ r.2)
      | none =>
        let r := expandAuxF effects fuel rest
        (c :: r.1, r.2)
    else
      let r := expandAuxF effects fuel rest
      (c :: r.1, r.2)

/-- Extraction of row templates (api.ts lines 220-229): rows map
positionally to effects, with excess rows bound to the last effect;
the row counter advances on every match. -/
def rowAuxF (effects : List Effect) : Nat → Nat → List Char →
    List Char × List TraitDetailRow
  | 0, _, s => (s, [])
  | _ + 1, _, [] => ([], [])
  | fuel + 1, idx, c :: rest =>
    if ciStarts "<row>".toList (c :: rest) then
      match scanCloseF "</row>".toList (c :: rest).length
          ((c :: rest).drop 5) [] with
      | some pr =>
        let effOpt :=
          match effects[idx]? with
          | some e => some e
          | none => effects.getLast?
        let rows :=
          match effOpt with
          | some e =>
            let resolved := stripLeadingUnits (cleanLine (resolveVarsInTextL pr.1 e))
            if resolved.isEmpty then ([] : List TraitDetailRow)
            else [⟨e.style, e.minUnits, String.mk resolved⟩]
          | none => []
        let r := rowAuxF effects fuel (idx + 1) pr.2
        (r.1, rows ++ r.2)
      | none =>
        let r := rowAuxF effects fuel idx rest
        (c :: r.1, r.2)
    else
      let r := rowAuxF effects fuel idx rest
      (c :: r.1, r.2)

/-- The four star-level colors of the trait colorizer (api.ts line
249). -/
def starColorsApi : List String := ["#a67c52", "#94a3b8", "#e6a030", "#e84e4e"]

/-- Parse of one numeric segment: digits, an optional fraction, an
optional percent sign. -/
def parseNumSeg (s : List Char) : Option (List Char × List Char) :=
  let ds := s.takeWhile Char.isDigit
  if ds.isEmpty then none
  else
    let r1 := s.drop ds.length
    let decr2 : List Char × List Char :=
      match r1 with
      | c :: rest =>
        if c == '.' then
          let fd := rest.takeWhile Char.isDigit
          if fd.isEmpty then ([], r1) else ('.' :: fd, rest.drop fd.length)
        else ([], r1)
      | [] => ([], r1)
    let pctr3 : List Char × List Char :=
      match decr2.2 with
      | c :: rest => if c == '%' then (['%'], rest) else ([], decr2.2)
      | [] => ([], decr2.2)
    some (ds ++ decr2.1 ++ pctr3.1, pctr3.2)

/-- Parse of up to three slash-number repetitions (greedy). -/
def parseNumReps : Nat → List Char → List Char × List Char
  | 0, s => ([], s)
  | k + 1, s =>
    match s with
    | c :: rest =>
      if c == '/' then
        match parseNumSeg rest with
        | some pr =>
          let r := parseNumReps k pr.2
          ('/' :: (pr.1 ++ r.1), r.2)
        | none => ([], s)
      else ([], s)
    | [] => ([], s)

/-- Word-boundary test after a match that is a prefix of the subject. -/
def boundaryOK (m : List Char) (s : List Char) : Bool :=
  !(isWordO m.getLast? == isWordO (s.drop m.length).head?)

/-- Backtracking of the trailing elements of a numeric-run match until
the closing word boundary holds: a trailing percent sign, then a
trailing fraction, then a whole repetition is given up, keeping at
least one slash. -/
def shrinkNumF : Nat → List Char → List Char → Option (List Char)
  | 0, _, _ => none
  | fuel + 1, m, s =>
    if boundaryOK m s then some m
    else
      match m.getLast? with
      | none => none
      | some last =>
        if last == '%' then shrinkNumF fuel m.dropLast s
        else
          let rev := m.reverse
          let td := rev.takeWhile Char.isDigit
          if !td.isEmpty && ((rev.drop td.length).head? == some '.') then
            shrinkNumF fuel (m.take (m.length - (td.length + 1))) s
          else
            let tail := rev.takeWhile (fun c => !(c == '/'))
            if tail.length == m.length then none
            else
              let m2 := m.take (m.length - (tail.length + 1))
              if m2.contains '/' then shrinkNumF fuel m2 s else none

/-- The numeric-run colorizer of api.ts lines 250-256: a word-bounded
run of one number followed by one to three slash-numbers is split on
slashes and colorized in the four-color star sequence. -/
def tryNum (prev : Option Char) (s : List Char) : Option (List Char × Nat) :=
  if isWordO prev then none
  else
    match parseNumSeg s with
    | none => none
    | some pr =>
      let reps := parseNumReps 3 pr.2
      if reps.1.isEmpty then none
      else
        let m0 := pr.1 ++ reps.1
        match shrinkNumF (m0.length + 1) m0 s with
        | none => none
        | some m =>
          let parts := m.splitOn '/'
          some ((String.intercalate mutedSlash
            (parts.enum.map (fun ip =>
              starSpan (starColorsApi.getD (min ip.1 3) "undefined")
                (String.mk ip.2)))).toList, m.length)

/-- Tokens of a stat-keyword pattern: literals, an optional literal,
and mandatory whitespace. -/
inductive KwTok where
  | lit : List Char → KwTok
  | optLit : List Char → KwTok
  | ws1 : KwTok

/-- One stat-keyword colorization pattern: its token sequence, case
sensitivity and color. -/
structure KwPattern where
  toks : List KwTok
  ci : Bool
  color : String

/-- Literal matching at the head, case-insensitive or sensitive. -/
def litStarts (ci : Bool) (pat s : List Char) : Bool :=
  if ci then ciStarts pat s else pat.isPrefixOf s

/-- Match of a keyword token sequence at the head of the text,
returning the consumed length; the optional literal is greedy with
fallback. -/
def matchKwToks (ci : Bool) : List KwTok → List Char → Option Nat
  | [], _ => some 0
  | .lit p :: rest, s =>
    if litStarts ci p s then
      (matchKwToks ci rest (s.drop p.length)).map (fun n => p.length + n)
    else none
  | .optLit p :: rest, s =>
    (if litStarts ci p s then
      (matchKwToks ci rest (s.drop p.length)).map (fun n => p.length + n)
     else none).orElse
      (fun _ => matchKwToks ci rest s)
  | .ws1 :: rest, s =>
    let ws := s.takeWhile jsIsSpace
    if ws.isEmpty then none
    else (matchKwToks ci rest (s.drop ws.length)).map (fun n => ws.length + n)

/-- The stat-keyword patterns of api.ts lines 260-283, in source
order. -/
def kwPatterns : List KwPattern :=
  [⟨[.lit "max".toList, .optLit "imum".toList, .ws1, .lit "Health".toList],
    true, "#2dd4bf"⟩,
   ⟨[.lit "Critical Strike Chance".toList], true, "#f87171"⟩,
   ⟨[.lit "Critical Strike Damage".toList], true, "#f87171"⟩,
   ⟨[.lit "Critical Strike".toList], true, "#f87171"⟩,
   ⟨[.lit "Damage Reduction".toList], true, "#eab308"⟩,
   ⟨[.lit "Magic Resist".toList], true, "#818cf8"⟩,
   ⟨[.lit "Attack Damage".toList], true, "#fb923c"⟩,
   ⟨[.lit "Ability Power".toList], true, "#c084fc"⟩,
   ⟨[.lit "Attack Speed".toList], true, "#a3e635"⟩,
   ⟨[.lit "Mana Regen".toList], true, "#60a5fa"⟩,
   ⟨[.lit "Crit Chance".toList], true, "#f87171"⟩,
   ⟨[.lit "Crit Damage".toList], true, "#f87171"⟩,
   ⟨[.lit "Magic Damage".toList], true, "#a78bfa"⟩,
   ⟨[.lit "Damage Amp".toList], true, "#a78bfa"⟩,
   ⟨[.lit "Omnivamp".toList], true, "#fb7185"⟩,
   ⟨[.lit "Durability".toList], true, "#eab308"⟩,
   ⟨[.lit "Health".toList], true, "#2dd4bf"⟩,
   ⟨[.lit "Armor".toList], true, "#eab308"⟩,
   ⟨[.lit "Shield".toList], true, "#fbbf24"⟩,
   ⟨[.lit "Mana".toList], false, "#60a5fa"⟩,
   ⟨[.lit "AD".toList], false, "#fb923c"⟩,
   ⟨[.lit "AP".toList], false, "#c084fc"⟩]

/-- Word-bounded match of one keyword pattern at the head. -/
def tryKw (pat : KwPattern) (prev : Option Char) (s : List Char) : Option Nat :=
  if isWordO prev then none
  else
    match matchKwToks pat.ci pat.toks s with
    | some n => if isWordO (s.drop n).head? then none else some n
    | none => none

/-- Scan of one keyword pattern with placeholder substitution (api.ts
lines 284-291): each match is stored as a colorized span and replaced
by an indexed placeholder so later patterns cannot rematch it. -/
def kwScanF (pat : KwPattern) : Nat → Option Char → List Char →
    List (List Char) → List Char × List (List Char)
  | 0, _, s, ph => (s, ph)
  | _ + 1, _, [], ph => ([], ph)
  | fuel + 1, prev, c :: rest, ph =>
    match tryKw pat prev (c :: rest) with
    | some n =>
      let used := max n 1
      let matched := (c :: rest).take used
      let span := ("<span style=\"color:" ++ pat.color ++ "\">").toList ++
        matched ++ "</span>".toList
      let idx := ph.length
      let placeholder := Char.ofNat 0 :: ("STAT".toList ++
        (jsNatToString idx).toList ++ [Char.ofNat 0])
      let r := kwScanF pat fuel matched.getLast? (List.drop used (c :: rest))
        (ph ++ [span])
      (placeholder ++ r.1, r.2)
    | none =>
      let r := kwScanF pat fuel (some c) rest ph
      (c :: r.1, r.2)

/-- All keyword passes in order, threading the placeholder store. -/
def kwAllPass (s : List Char) : List Char × List (List Char) :=
  kwPatterns.foldl (fun acc pat => kwScanF pat acc.1.length none acc.1 acc.2)
    (s, [])

/-- Restoration of the placeholders (api.ts line 293). -/
def tryRestore (ph : List (List Char)) (_ : Option Char) (s : List Char) :
    Option (List Char × Nat) :=
  match s with
  | c :: rest =>
    if c == Char.ofNat 0 then
      if ("STAT".toList).isPrefixOf rest then
        let ds := (rest.drop 4).takeWhile Char.isDigit
        if ds.isEmpty then none
        else
          match (rest.drop 4).drop ds.length with
          | d :: _ =>
            if d == Char.ofNat 0 then
              some (ph.getD (digitsToNat ds) ("undefined".toList),
                4 + ds.length + 2)
            else none
          | [] => none
      else none
    else none
  | [] => none

def restoreScan (ph : List (List Char)) (s : List Char) : List Char :=
  scanRep (tryRestore ph) none s

/-- Result of the trait description resolver: the flat summary and the
structured breakpoint rows. -/
structure TraitDescResult where
  summary : String
  details : List TraitDetailRow
deriving DecidableEq, Repr

/-- resolveTraitDesc (api.ts lines 189-296): runtime-token and label
suppression, expandRow and row extraction, variable resolution with
the first effect, line cleaning with garbage suppression, break-run
collapse and trimming, summary promotion from the first detail row,
numeric-run colorization, and keyword colorization via placeholders. -/
def resolveTraitDesc (rawDesc : String) (effects : List Effect) :
    TraitDescResult :=
  match effects with
  | [] => ⟨rawDesc, []⟩
  | e0 :: _ =>
    if rawDesc == "" then ⟨rawDesc, []⟩
    else
      let d0 := rawDesc.toList
      let d1 := scanRep tryRules none d0
      let d2 := scanRep tryUnitLine none d1
      let d3 := scanRep tryCurrentLabel none d2
      let pr4 := expandAuxF effects d3.length d3
      let pr5 := rowAuxF effects pr4.1.length 0 pr4.1
      let rows := pr4.2 ++ pr5.2
      let d6 := resolveVarsInTextL pr5.1 e0
      let lines := ((splitBr d6).map cleanLine).filter (fun l => !isGarbageLine l)
      let j1 := List.intercalate ("<br>".toList) lines
      let j2 := scanRep tryBrRun none j1
      let j3 := stripLeadBr j2
      let j4 := stripTrailBr j3
      let j5 := jsTrim j4
      let summary1 :=
        if j5.isEmpty then
          match rows with
          | r :: _ => r.text.toList
          | [] => j5
        else j5
      let s2 := scanRep tryNum none summary1
      let pr6 := kwAllPass s2
      let s3 := restoreScan pr6.2 pr6.1
      ⟨String.mk s3, rows⟩

/-- Per-effect defaulting of parseCDragonTraits (api.ts lines
321-326). -/
def parseTraitEffect (e : RawEffect) : Effect :=
  { minUnits := e.minUnits.getD 0
    maxUnits := e.maxUnits.getD 999
    style := e.style.getD 0
    vars := e.vars.getD [] }

/-- The trait filter of parseCDragonTraits (api.ts line 319): a truthy
name that does not start with the template marker. -/
def keepTrait (t : RawTrait) : Bool :=
  match t.name with
  | none => false
  | some n => !(n == "") && !(startsS n "TFT_Template")

/-- The per-record mapping of parseCDragonTraits (api.ts lines
320-338). -/
def parseTrait (t : RawTrait) : TFTTrait :=
  let effects := (t.effects.getD []).map parseTraitEffect
  let r := resolveTraitDesc (t.desc.getD "") effects
  { key := t.apiName.getD (t.name.getD "")
    name := t.name.getD ""
    desc := r.summary
    descDetails := r.details
    icon := assetUrl t.icon
    type := classifyTraitType t
    style := t.style.getD 0
    effects := effects
    champions := [] }

/-- The trait sort order map of api.ts line 342. -/
def traitOrder : TraitType → Int
  | .origin => 0
  | .cls => 1
  | .teamup => 2
  | .unique => 3

/-- Comparator of the trait sort (api.ts lines 340-345). -/
def traitCmp (a b : TFTTrait) : Int :=
  jsOrI (traitOrder a.type - traitOrder b.type)
    (jsCompareStrings a.name b.name)

/-- parseCDragonTraits (api.ts lines 317-346): filter, map, sort. -/
def parseCDragonTraits (raw : List RawTrait) : List TFTTrait :=
  jsSortCmp traitCmp ((raw.filter keepTrait).map parseTrait)

/-- Raw item record of the top-level items array (the fields read by
parseSetItems and resolveAugments). -/
structure RawItem where
  apiName : Option String
  name : Option String
  desc : Option String
  icon : Option String
  composition : Option (List String)
  id : Option Int
  effects : Option (List (String × JSNum))
  tags : Option (List String)
  associatedTraits : Option (List String)
deriving DecidableEq, Repr

/-- Parsed item (the TFTItem shape of types.ts); fromRefs models the
field named from of the source, which is a reserved word here. -/
structure TFTItem where
  id : Option Int
  name : String
  desc : String
  icon : String
  category : ItemCategory
  fromRefs : List String
  effects : List (String × JSNum)
  uniqueId : String
deriving DecidableEq, Repr

/-- The item lookup map of parseSetItems and resolveAugments (api.ts
lines 355 and 431): records with truthy api names, later entries
overwriting earlier ones. -/
def itemMapGet (allItems : List RawItem) (ref : String) : Option RawItem :=
  (allItems.filter (fun i =>
    match i.apiName with
    | some a => !(a == "") && a == ref
    | none => false)).getLast?

/-- The reference loop of parseSetItems (api.ts lines 367-408): seen
references are skipped (and recorded before any other test),
unresolved references and placeholder, consumable, champion-item,
armory-grant and assist records are dropped, the rest mapped. -/
def parseSetItemsAux (allItems : List RawItem) :
    List String → List String → List TFTItem
  | [], _ => []
  | ref :: rest, seen =>
    if seen.contains ref then parseSetItemsAux allItems rest seen
    else
      match itemMapGet allItems ref with
      | none => parseSetItemsAux allItems rest (ref :: seen)
      | some raw =>
        let name := raw.name.getD ""
        let api := raw.apiName.getD ref
        if name == "" || jsIncludesChar name '@' ||
            startsS name "tft_item_name_" then
          parseSetItemsAux allItems rest (ref :: seen)
        else if containsS api "ChampionItem" || containsS api "Consumable" ||
            containsS api "CypherArmory" || containsS api "Grant" ||
            containsS api "Assist_" then
          parseSetItemsAux allItems rest (ref :: seen)
        else
          { id := raw.id
            name := name
            desc := raw.desc.getD ""
            icon := assetUrl raw.icon
            category := itemCategory name api (raw.desc.getD "")
              (raw.composition.getD [])
            fromRefs := raw.composition.getD []
            effects := raw.effects.getD []
            uniqueId := api } :: parseSetItemsAux allItems rest (ref :: seen)

/-- The item category sort order map of api.ts lines 411-413. -/
def catOrderI : ItemCategory → Int
  | .component => 0
  | .completed => 1
  | .emblem => 2
  | .artifact => 3
  | .radiant => 4
  | .support => 5
  | .other => 9

/-- Comparator of the item sort (api.ts line 414). -/
def itemCmp (a b : TFTItem) : Int :=
  jsOrI (catOrderI a.category - catOrderI b.category)
    (jsCompareStrings a.name b.name)

/-- parseSetItems (api.ts lines 352-415): resolve, filter, map,
sort. -/
def parseSetItems (setItemRefs : List String) (allItems : List RawItem) :
    List TFTItem :=
  jsSortCmp itemCmp (parseSetItemsAux allItems setItemRefs [])

/-- Parsed augment (the TFTAugment shape of types.ts). -/
structure TFTAugment where
  id : String
  name : String
  desc : String
  icon : String
  tier : Int
  associatedTraits : List String
deriving DecidableEq, Repr

/-- The hashed tier tags of api.ts lines 424-428 (keys are the raw
brace-delimited cdragon tag ids). -/
def AUGMENT_TIER_TAGS : List (String × Int) :=
  [("\x7bd11fd6d5\x7d", 1), ("\x7bce1fd21c\x7d", 2), ("\x7bcf1fd3af\x7d", 3)]

/-- Trailing slash-separated segment of an icon path (api.ts line 446:
split on slash and pop, with the empty-string default). -/
def lastSlashSeg (s : String) : List Char :=
  ((s.toList.splitOn '/').getLast?).getD []

/-- Test of the roman-numeral icon patterns of api.ts lines 447-449: a
dash or underscore, n letters i of either case, and a dot or
underscore, anywhere in the file name. -/
def romanPat (n : Nat) : List Char → Bool
  | [] => false
  | c :: rest =>
    ((c == '-' || c == '_') && (rest.take n).length == n &&
      (rest.take n).all (fun x => x == 'i' || x == 'I') &&
      (match rest.drop n with
       | d :: _ => d == '.' || d == '_'
       | [] => false)) ||
    romanPat n rest

/-- Tier determination of resolveAugments (api.ts lines 438-451): the
first tag found in the tier map wins, else the icon file name patterns
three, two, one, else the gold default. -/
def augTier (raw : RawItem) : Int :=
  match (raw.tags.getD []).find?
      (fun tg => (AUGMENT_TIER_TAGS.find? (fun kv => kv.1 == tg)).isSome) with
  | some tg =>
    ((AUGMENT_TIER_TAGS.find? (fun kv => kv.1 == tg)).map
      (fun kv => kv.2)).getD 2
  | none =>
    let iconFile := lastSlashSeg (raw.icon.getD "")
    if romanPat 3 iconFile then 3
    else if romanPat 2 iconFile then 2
    else if romanPat 1 iconFile then 1
    else 2

/-- The per-reference mapping of resolveAugments (api.ts lines
434-459): unresolved references and falsy names give null. -/
def resolveAugment (allItems : List RawItem) (ref : String) :
    Option TFTAugment :=
  match itemMapGet allItems ref with
  | none => none
  | some raw =>
    match raw.name with
    | none => none
    | some nm =>
      if nm == "" then none
      else
        some { id := raw.apiName.getD ref
               name := raw.name.getD ""
               desc := raw.desc.getD ""
               icon := assetUrl raw.icon
               tier := augTier raw
               associatedTraits := raw.associatedTraits.getD [] }

/-- Comparator of the augment sort (api.ts line 461). -/
def augCmp (a b : TFTAugment) : Int :=
  jsOrI (a.tier - b.tier) (jsCompareStrings a.name b.name)

/-- resolveAugments (api.ts lines 430-462): resolve, drop nulls,
sort. -/
def resolveAugments (augRefs : List String) (allItems : List RawItem) :
    List TFTAugment :=
  jsSortCmp augCmp (augRefs.filterMap (resolveAugment allItems))

/-- Character class of plain lowercase prose: lowercase letters and
single spaces; such characters are fixed by lowercasing and are not
digits (the last two conjuncts are recorded explicitly for direct
use). -/
def plainClassChar (c : Char) : Bool :=
  (c.isLower || c == ' ') && (c.toLower == c) && !c.isDigit

/-- The phrases whose case-insensitive presence triggers a rewriting
pass of the trait resolver: the current-stats labels of step zero and
the case-insensitive stat keywords (the case-sensitive keywords Mana,
AD and AP cannot occur in lowercase prose). -/
def kwBanList : List String :=
  ["Current Bonus Stats", "Current Stats", "Current Serpents",
   "Health", "Critical Strike Chance", "Critical Strike Damage",
   "Critical Strike", "Damage Reduction", "Magic Resist", "Attack Damage",
   "Ability Power", "Attack Speed", "Mana Regen", "Crit Chance",
   "Crit Damage", "Magic Damage", "Damage Amp", "Omnivamp", "Durability",
   "Armor", "Shield"]

/-- Plain-prose predicate for the round-trip theorem: lowercase
letters and spaces only, already whitespace-normalized (no doubled
whitespace, no leading or trailing whitespace), and free of the
colorizable stat phrases. Such text contains no tokens and no markup. -/
def plainTraitText (s : List Char) : Bool :=
  s.all plainClassChar && !hasDoubleWS s &&
    (match s.head? with | some c => !jsIsSpace c | none => true) &&
    (match s.getLast? with | some c => !jsIsSpace c | none => true) &&
    kwBanList.all (fun p => !containsCIL s p.toList)

/-- Sample raw record with a zero cost that survives the non-player
filter (used to witness the cost clamp). -/
def sampleRawChampion : RawChampion :=
  { name := some "Ann", apiName := some "TFT15_Ann", characterId := none,
    cost := some 0, tier := none, traits := some ["Star"],
    ability := none, stats := none, icon := none, tileIcon := none,
    squareIcon := none }

/-- Sample raw record with cost 7 (used to witness the non-player
filter on high costs). -/
def sampleHighCostChampion : RawChampion :=
  { name := some "Baron", apiName := some "TFT15_Baron", characterId := none,
    cost := some 7, tier := none, traits := some ["Pit"],
    ability := none, stats := none, icon := none, tileIcon := none,
    squareIcon := none }

/-- Raw trait with no positive minimum-unit thresholds. -/
def noThresholdTrait : RawTrait :=
  { apiName := some "TFT16_Edge", name := some "Edge", desc := none,
    icon := none, style := none, effects := some [] }

/-- Raw trait whose positive thresholds appear out of order (5 before
2), so the first and the lowest threshold differ. -/
def unsortedTrait : RawTrait :=
  { apiName := some "TFT16_Twist", name := some "Twist", desc := none,
    icon := none, style := none,
    effects := some [⟨some 5, none, none, none⟩, ⟨some 2, none, none, none⟩] }

/- ───────────────────────── theorems ───────────────────────── -/

/-- The characters produced by natToCharsAux are decimal digits. -/
theorem natToCharsAux_digits (fuel n : Nat) (acc : List Char)
    (hacc : ∀ c ∈ acc, c.isDigit = true) :
    ∀ c ∈ natToCharsAux fuel n acc, c.isDigit = true := by
  induction fuel generalizing n acc with
  | zero => simpa [natToCharsAux] using hacc
  | succ fuel ih =>
    intro c hc
    rw [natToCharsAux] at hc
    split at hc
    · rcases List.mem_cons.mp hc with h | h
      · subst h
        unfold digitCh
        split <;> decide
      · exact hacc c h
    · refine ih (n / 10) _ ?_ c hc
      intro d hd
      rcases List.mem_cons.mp hd with h | h
      · subst h
        unfold digitCh
        split <;> decide
      · exact hacc d h

/-- Digits of a natural number rendering. -/
theorem jsNatToString_digits (n : Nat) :
    ∀ c ∈ (jsNatToString n).toList, c.isDigit = true := by
  intro c hc
  exact natToCharsAux_digits (n + 1) n [] (by simp) c hc

/-- A scan over text where the pattern never matches is the identity
(for any sufficient fuel). -/
theorem scanRepF_id (tryFn : Option Char → List Char → Option (List Char × Nat)) :
    ∀ (fuel : Nat) (cs : List Char), cs.length ≤ fuel →
      (∀ prev t, t <:+ cs → tryFn prev t = none) →
      ∀ prev, scanRepF tryFn fuel prev cs = cs := by
  intro fuel
  induction fuel with
  | zero => intro cs _ _ prev; rfl
  | succ fuel ih =>
    intro cs hlen h prev
    cases cs with
    | nil => rfl
    | cons c rest =>
      rw [scanRepF, h prev (c :: rest) List.suffix_rfl]
      have hr : scanRepF tryFn fuel (some c) rest = rest := by
        refine ih rest ?_ ?_ (some c)
        · simp only [List.length_cons] at hlen
          omega
        · intro prev' t ht
          exact h prev' t (ht.trans (List.suffix_cons c rest))
      rw [hr]

/-- A scan over text where the pattern never matches is the identity. -/
theorem scanRep_id (tryFn : Option Char → List Char → Option (List Char × Nat))
    (cs : List Char)
    (h : ∀ prev t, t <:+ cs → tryFn prev t = none) :
    ∀ prev, scanRep tryFn prev cs = cs := by
  intro prev
  exact scanRepF_id tryFn cs.length cs le_rfl h prev

/-- The characters of an integer rendering are digits or a leading
minus sign; in particular an underscore never occurs. -/
theorem jsIntToString_no_underscore (i : Int) :
    ('_' ∈ (jsIntToString i).toList) → False := by
  intro h
  unfold jsIntToString at h
  split at h
  · rw [show (("-" ++ jsNatToString i.natAbs).toList) =
        '-' :: (jsNatToString i.natAbs).toList from rfl] at h
    rcases List.mem_cons.mp h with h | h
    · exact absurd h (by decide)
    · have := jsNatToString_digits i.natAbs '_' h
      simp [Char.isDigit] at this
  · have := jsNatToString_digits i.natAbs '_' h
    simp [Char.isDigit] at this

/-- Membership is preserved by stable insertion. -/
theorem mem_jsInsertCmp {α : Type} (cmp : α → α → Int) (x a : α)
    (l : List α) : a ∈ jsInsertCmp cmp x l ↔ a = x ∨ a ∈ l := by
  induction l with
  | nil => simp [jsInsertCmp]
  | cons y ys ih =>
    unfold jsInsertCmp
    split
    · simp
    · simp only [List.mem_cons, ih]
      tauto

/-- Membership is preserved by the comparator sort. -/
theorem mem_jsSortCmp {α : Type} (cmp : α → α → Int) (a : α) (l : List α) :
    a ∈ jsSortCmp cmp l ↔ a ∈ l := by
  induction l with
  | nil => simp [jsSortCmp]
  | cons x xs ih =>
    unfold jsSortCmp
    rw [mem_jsInsertCmp, ih]
    simp

/-- The clamp always lands in the five-element cost set. -/
theorem clampCost_cases (n : Int) :
    clampCost n = 1 ∨ clampCost n = 2 ∨ clampCost n = 3 ∨
    clampCost n = 4 ∨ clampCost n = 5 := by
  unfold clampCost
  omega

/-- Claim C4: every champion produced by the parser from records that
survive the non-player filter has cost in the set of one to five; raw
costs of 0, 6, negative or absent values are clamped into the range. -/
theorem c4_champion_cost_clamped (raw : List RawChampion) (c : TFTChampion)
    (hc : c ∈ parseCDragonChampions raw) :
    c.cost = 1 ∨ c.cost = 2 ∨ c.cost = 3 ∨ c.cost = 4 ∨ c.cost = 5 := by
  unfold parseCDragonChampions at hc
  rw [mem_jsSortCmp] at hc
  rcases List.mem_map.mp hc with ⟨r, _, rfl⟩
  exact clampCost_cases (rawCost r)

/-- Witness for C4: a surviving record with raw cost 0 parses to cost 1,
which is in the admissible set. -/
theorem c4_witness :
    (parseChampion sampleRawChampion).cost = 1 ∨
    (parseChampion sampleRawChampion).cost = 2 ∨
    (parseChampion sampleRawChampion).cost = 3 ∨
    (parseChampion sampleRawChampion).cost = 4 ∨
    (parseChampion sampleRawChampion).cost = 5 :=
  c4_champion_cost_clamped [sampleRawChampion] (parseChampion sampleRawChampion)
    (by decide)

/-- Claim C5: a raw record whose effective cost exceeds 5 is classified
as non-playable by isNPC and therefore dropped by the parser filter;
moreover the filter is a total boolean predicate, giving every record a
verdict. -/
theorem c5_high_cost_excluded :
    (∀ c : RawChampion, 5 < rawCost c →
      isNPC c = true ∧ keepChampion c = false) ∧
    (∀ c : RawChampion, isNPC c = true ∨ isNPC c = false) := by
  constructor
  · intro c h
    have hn : isNPC c = true := by
      unfold isNPC
      simp [h]
    refine ⟨hn, ?_⟩
    unfold keepChampion
    rw [hn]
    simp
  · intro c
    cases h : isNPC c
    · exact Or.inr rfl
    · exact Or.inl rfl

/-- Witness for C5: the record with cost 7 is rejected. -/
theorem c5_witness :
    isNPC sampleHighCostChampion = true ∧
    keepChampion sampleHighCostChampion = false :=
  c5_high_cost_excluded.1 sampleHighCostChampion (by decide)

/-- Claim C2: among candidates sharing the maximum revision number, the
selector picks the one whose mutator has no underscore over the one
with an underscored (mode-suffixed) mutator, in either list order. -/
theorem c2_selector_prefers_standard (l : List SetCandidate) (m : Int)
    (a b : SetCandidate) (hmax : maxSetNumber l = some m)
    (hf : l.filter (fun s => numberOr0 s == m) = [a, b] ∨
          l.filter (fun s => numberOr0 s == m) = [b, a])
    (ha : jsIncludesChar (mutatorStr a) '_' = false)
    (hb : jsIncludesChar (mutatorStr b) '_' = true) :
    selectCurrentSet l = some a := by
  have haT : isStdA m a = true := by
    unfold isStdA
    rw [ha]
    simp
  have hbF : isStdA m b = false := by
    unfold isStdA
    rw [hb]
    simp only [Bool.not_true, Bool.false_or]
    rw [beq_eq_false_iff_ne]
    intro heq
    have hmem : '_' ∈ (mutatorStr b).toList := by
      have h2 := hb
      unfold jsIncludesChar at h2
      simpa using h2
    rw [heq] at hmem
    have hsplit : ("TFTSet" ++ jsIntToString m).toList =
        "TFTSet".toList ++ (jsIntToString m).toList := by
      simp [String.toList, String.data_append]
    rw [hsplit] at hmem
    rcases List.mem_append.mp hmem with h | h
    · exact absurd h (by decide)
    · exact jsIntToString_no_underscore m h
  unfold selectCurrentSet
  rw [hmax]
  rcases hf with hf | hf <;> simp only [hf] <;>
    simp [List.find?, haT, hbF, Option.orElse]

/-- Witness for C2: the spec scenario with sets 14, 15 and a Turbo
variant of 15; the standard 15 candidate is selected although the
Turbo candidate precedes it. -/
theorem c2_witness :
    selectCurrentSet
      [⟨some 14, some "TFTSet14", none⟩,
       ⟨some 15, some "TFTSet15_Turbo", none⟩,
       ⟨some 15, some "TFTSet15", none⟩] =
    some ⟨some 15, some "TFTSet15", none⟩ :=
  c2_selector_prefers_standard _ 15
    ⟨some 15, some "TFTSet15", none⟩ ⟨some 15, some "TFTSet15_Turbo", none⟩
    (by decide) (Or.inr (by decide)) (by decide) (by decide)

/-- Claim C3: a record outside the component set, without the support
marker, Emblem name, artifact marker, but with a Radiant name and a
two-element recipe classifies as radiant, not completed; and the
category chain equals the first-match rule in the fixed order
component, support, emblem, artifact, radiant, completed, other. -/
theorem c3_radiant_over_completed (name api desc : String) (comp : List String)
    (h1 : COMPONENT_APIS.contains api = false)
    (h2 : containsS desc "[Support item]" = false)
    (h3 : containsS name "Emblem" = false)
    (h4 : containsS api "Artifact" = false)
    (h5 : startsS name "Radiant " = true)
    (h6 : comp.length = 2) :
    itemCategory name api desc comp = .radiant ∧
    ∀ n a d c, itemCategory n a d c = itemCategorySpecOrder n a d c := by
  constructor
  · have h1m : api ∉ COMPONENT_APIS := by simpa using h1
    unfold itemCategory
    simp [h1, h2, h3, h4, h5, h1m]
  · intro n a d c
    unfold itemCategory itemCategorySpecOrder
    cases hA : COMPONENT_APIS.contains a <;>
    cases hB : containsS d "[Support item]" <;>
    cases hC : containsS n "Emblem" <;>
    cases hD : containsS a "Artifact" <;>
    cases hE : startsS n "Radiant " <;>
    cases hF : c.length == 2 <;>
      simp [hA, hB, hC, hD, hE, hF, List.find?]

/-- Witness for C3: the spec record with api name X, name Radiant Blade
and a two-component recipe resolves to radiant. -/
theorem c3_witness :
    itemCategory "Radiant Blade" "X" "" ["A", "B"] = .radiant :=
  (c3_radiant_over_completed "Radiant Blade" "X" "" ["A", "B"]
    (by decide) (by decide) (by decide) (by decide) (by decide) (by decide)).1

/-- Claim C8 counterexample: the classifier returns class, not unique,
for a trait with zero positive thresholds; and for thresholds 5, 2 in
record order it returns origin although the lowest threshold is 2,
which the claim as stated would send to class. -/
theorem c8_counterexample :
    classifyTraitType noThresholdTrait = .cls ∧
    classifyTraitType noThresholdTrait ≠ .unique ∧
    classifyTraitType unsortedTrait = .origin ∧
    classifyTraitType unsortedTrait ≠ .cls := by
  decide

/-- Claim C8 (amended): the trait-type classifier implements the rule:
teamup when the identifier contains the marker; else unique when there
is exactly one positive threshold and it is at most 2; else origin when
the first positive threshold in record order is at least 3; else class,
in particular when there are no positive thresholds. -/
theorem c8_trait_type_rule (t : RawTrait) :
    classifyTraitType t = specTraitType t := by
  unfold classifyTraitType specTraitType
  cases hteam : containsS (t.apiName.getD "") "Teamup" <;> simp only [hteam]
  · cases hbps : positiveBPs t with
    | nil => simp [jsLeOpt, jsGeOpt]
    | cons b tl =>
      cases tl with
      | nil => simp [jsLeOpt, jsGeOpt]
      | cons b2 tl2 => simp [jsLeOpt, jsGeOpt]
  · simp

/-- Reflexivity of the trait extension relation. -/
theorem traitExt_refl (t : TFTTrait) : TraitExt t t :=
  ⟨rfl, rfl, rfl, [], by simp⟩

/-- Transitivity of the trait extension relation. -/
theorem traitExt_trans {t u v : TFTTrait} (h1 : TraitExt t u)
    (h2 : TraitExt u v) : TraitExt t v := by
  obtain ⟨hk1, hn1, hy1, e1, hc1⟩ := h1
  obtain ⟨hk2, hn2, hy2, e2, hc2⟩ := h2
  exact ⟨hk2.trans hk1, hn2.trans hn1, hy2.trans hy1, e1 ++ e2,
    by rw [hc2, hc1, List.append_assoc]⟩

/-- Reflexivity of the list extension relation. -/
theorem traitsExt_refl : ∀ ts : List TFTTrait, TraitsExt ts ts
  | [] => List.Forall₂.nil
  | t :: ts => List.Forall₂.cons (traitExt_refl t) (traitsExt_refl ts)

/-- Transitivity of the list extension relation. -/
theorem traitsExt_trans {a b c : List TFTTrait} (h1 : TraitsExt a b)
    (h2 : TraitsExt b c) : TraitsExt a c := by
  induction h1 generalizing c with
  | nil => cases h2; exact List.Forall₂.nil
  | cons hext hrest ih =>
    cases h2 with
    | cons hext2 hrest2 =>
      exact List.Forall₂.cons (traitExt_trans hext hext2) (ih hrest2)

/-- The matching predicate only reads fields preserved by extension. -/
theorem traitMatches_ext (tn : String) {t u : TFTTrait} (h : TraitExt t u) :
    traitMatches tn u = traitMatches tn t := by
  obtain ⟨hk, hn, _, _, _⟩ := h
  unfold traitMatches
  rw [hk, hn]

/-- Membership only grows under extension. -/
theorem hasMember_ext {t u : TFTTrait} (h : TraitExt t u) (n : String)
    (hm : hasMemberNamed t n = true) : hasMemberNamed u n = true := by
  obtain ⟨_, _, _, e, hc⟩ := h
  unfold hasMemberNamed at hm ⊢
  rw [hc]
  simp only [List.any_append, hm, Bool.true_or]

/-- A linking action only extends the trait list. -/
theorem addChamp_ext (c : TFTChampion) (tn : String) :
    ∀ ts, TraitsExt ts (addChampToTrait c tn ts)
  | [] => List.Forall₂.nil
  | t :: rest => by
    unfold addChampToTrait
    split
    · split
      · exact List.Forall₂.cons (traitExt_refl t) (traitsExt_refl rest)
      · exact List.Forall₂.cons ⟨rfl, rfl, rfl, [memberOf c], rfl⟩
          (traitsExt_refl rest)
    · exact List.Forall₂.cons (traitExt_refl t) (addChamp_ext c tn rest)

/-- The fold of linking actions over the trait names of one champion
only extends the trait list. -/
theorem traitsExt_foldAdd (c : TFTChampion) :
    ∀ (tns : List String) (ts : List TFTTrait),
      TraitsExt ts (tns.foldl (fun a tn => addChampToTrait c tn a) ts)
  | [], _ => traitsExt_refl _
  | tn :: tns, ts => by
    rw [List.foldl_cons]
    exact traitsExt_trans (addChamp_ext c tn ts)
      (traitsExt_foldAdd c tns (addChampToTrait c tn ts))

/-- The champion-trait linking loop only extends the trait list. -/
theorem traitsExt_linkChampTraits :
    ∀ (champs : List TFTChampion) (ts : List TFTTrait),
      TraitsExt ts (linkChampTraits champs ts)
  | [], ts => traitsExt_refl ts
  | c :: cs, ts => by
    unfold linkChampTraits
    rw [List.foldl_cons]
    exact traitsExt_trans (traitsExt_foldAdd c c.traits ts)
      (traitsExt_linkChampTraits cs _)

/-- A team-up linking action only extends the trait. -/
theorem addTeamup_ext (champs : List TFTChampion) (p : String) (t : TFTTrait) :
    TraitExt t (addTeamupChamp champs p t) := by
  unfold addTeamupChamp
  split
  · exact traitExt_refl t
  · split
    · exact traitExt_refl t
    · exact ⟨rfl, rfl, rfl, [memberOf _], rfl⟩

/-- The fold of team-up actions only extends the trait. -/
theorem teamupFold_ext (champs : List TFTChampion) :
    ∀ (ps : List String) (t : TFTTrait),
      TraitExt t (ps.foldl (fun a p => addTeamupChamp champs p a) t)
  | [], t => traitExt_refl t
  | p :: ps, t => by
    rw [List.foldl_cons]
    exact traitExt_trans (addTeamup_ext champs p t)
      (teamupFold_ext champs ps _)

/-- Processing a team-up trait only extends it. -/
theorem processTeamup_ext (champs : List TFTChampion) (t : TFTTrait) :
    TraitExt t (processTeamup champs t) :=
  teamupFold_ext champs (teamupCandidates t) t

/-- The per-trait team-up step only extends the trait. -/
theorem teamupStep_ext (champs : List TFTChampion) (t : TFTTrait) :
    TraitExt t (teamupStep champs t) := by
  unfold teamupStep
  split
  · exact processTeamup_ext champs t
  · exact traitExt_refl t

/-- The team-up loop only extends the trait list. -/
theorem traitsExt_linkTeamups (champs : List TFTChampion) :
    ∀ ts : List TFTTrait, TraitsExt ts (linkTeamups champs ts)
  | [] => List.Forall₂.nil
  | t :: ts =>
    List.Forall₂.cons (teamupStep_ext champs t)
      (traitsExt_linkTeamups champs ts)

/-- After its own linking action, a champion and trait name are
covered. -/
theorem coveredB_addChamp (c : TFTChampion) (tn : String) :
    ∀ ts, coveredB c tn (addChampToTrait c tn ts) = true := by
  intro ts
  induction ts with
  | nil => rfl
  | cons t rest ih =>
    unfold addChampToTrait
    split
    · rename_i hmatch
      split
      · rename_i hmem
        unfold coveredB
        rw [if_pos hmatch, hmem]
      · unfold coveredB
        rw [if_pos (by
          have : traitMatches tn { t with champions := t.champions ++ [memberOf c] } =
              traitMatches tn t := traitMatches_ext tn ⟨rfl, rfl, rfl, [memberOf c], rfl⟩
          rw [this]; assumption)]
        unfold hasMemberNamed
        simp [memberOf]
    · rename_i hmatch
      unfold coveredB
      rw [if_neg (by simpa using hmatch)]
      exact ih

/-- Coverage is preserved by extension of the trait list. -/
theorem coveredB_mono (c : TFTChampion) (tn : String) :
    ∀ {ts us : List TFTTrait}, TraitsExt ts us →
      coveredB c tn ts = true → coveredB c tn us = true := by
  intro ts us h
  induction h with
  | nil => exact fun h => h
  | @cons t u l1 l2 hext hrest ih =>
    intro hcov
    unfold coveredB at hcov ⊢
    rw [traitMatches_ext tn hext]
    by_cases hm : traitMatches tn t = true
    · rw [if_pos hm]
      rw [if_pos hm] at hcov
      exact hasMember_ext hext _ hcov
    · rw [if_neg hm]
      rw [if_neg hm] at hcov
      exact ih hcov

/-- A covered linking action is the identity. -/
theorem addChamp_id_of_covered (c : TFTChampion) (tn : String) :
    ∀ ts, coveredB c tn ts = true → addChampToTrait c tn ts = ts := by
  intro ts
  induction ts with
  | nil => intro _; rfl
  | cons t rest ih =>
    intro hcov
    unfold coveredB at hcov
    unfold addChampToTrait
    split
    · rename_i hmatch
      rw [if_pos hmatch] at hcov
      rw [if_pos hcov]
    · rename_i hmatch
      rw [if_neg (by simpa using hmatch)] at hcov
      rw [ih hcov]

/-- After the fold over the trait names of a champion, every name in
the list is covered for that champion. -/
theorem covered_after_foldAdd (c : TFTChampion) :
    ∀ (tns : List String) (ts : List TFTTrait) (tn : String), tn ∈ tns →
      coveredB c tn (tns.foldl (fun a x => addChampToTrait c x a) ts) = true := by
  intro tns
  induction tns with
  | nil => intro ts tn h; cases h
  | cons x xs ih =>
    intro ts tn h
    rw [List.foldl_cons]
    rcases List.mem_cons.mp h with rfl | h
    · exact coveredB_mono c tn (traitsExt_foldAdd c xs _) (coveredB_addChamp c tn ts)
    · exact ih _ tn h

/-- After the champion-trait loop, every pair of a champion and one of
its trait names is covered. -/
theorem covered_after_linkChampTraits :
    ∀ (champs : List TFTChampion) (ts : List TFTTrait) (c : TFTChampion)
      (tn : String), c ∈ champs → tn ∈ c.traits →
      coveredB c tn (linkChampTraits champs ts) = true := by
  intro champs
  induction champs with
  | nil => intro ts c tn h; cases h
  | cons c0 cs ih =>
    intro ts c tn hc htn
    unfold linkChampTraits
    rw [List.foldl_cons]
    rcases List.mem_cons.mp hc with rfl | hc
    · exact coveredB_mono c tn (traitsExt_linkChampTraits cs _)
        (covered_after_foldAdd c c.traits ts tn htn)
    · exact ih _ c tn hc htn

/-- A fold of covered linking actions is the identity. -/
theorem foldAdd_id_of_covered (c : TFTChampion) :
    ∀ (tns : List String) (ts : List TFTTrait),
      (∀ tn ∈ tns, coveredB c tn ts = true) →
      tns.foldl (fun a x => addChampToTrait c x a) ts = ts := by
  intro tns
  induction tns with
  | nil => intro ts _; rfl
  | cons x xs ih =>
    intro ts h
    rw [List.foldl_cons, addChamp_id_of_covered c x ts (h x (List.mem_cons_self x xs))]
    exact ih ts (fun tn htn => h tn (List.mem_cons_of_mem x htn))

/-- The champion-trait loop is the identity on a fully covered state. -/
theorem linkChampTraits_id (champs : List TFTChampion) (ts : List TFTTrait)
    (h : ∀ c ∈ champs, ∀ tn ∈ c.traits, coveredB c tn ts = true) :
    linkChampTraits champs ts = ts := by
  induction champs with
  | nil => rfl
  | cons c0 cs ih =>
    unfold linkChampTraits
    rw [List.foldl_cons,
      foldAdd_id_of_covered c0 c0.traits ts (h c0 (List.mem_cons_self c0 cs))]
    exact ih (fun c hc tn htn => h c (List.mem_cons_of_mem c0 hc) tn htn)

/-- A team-up fold that did not grow the member list is the identity. -/
theorem teamupFold_id_of_same (champs : List TFTChampion) :
    ∀ (ps : List String) (t : TFTTrait),
      (ps.foldl (fun a p => addTeamupChamp champs p a) t).champions = t.champions →
      ps.foldl (fun a p => addTeamupChamp champs p a) t = t := by
  intro ps
  induction ps with
  | nil => intro t _; rfl
  | cons p ps ih =>
    intro t h
    rw [List.foldl_cons] at h ⊢
    cases hf : champs.find? (fun c => containsS c.name p) with
    | none =>
      have hstep : addTeamupChamp champs p t = t := by unfold addTeamupChamp; rw [hf]
      rw [hstep] at h ⊢
      exact ih t h
    | some c =>
      by_cases hm : hasMemberNamed t c.name = true
      · have hstep : addTeamupChamp champs p t = t := by
          simp [addTeamupChamp, hf, hm]
        rw [hstep] at h ⊢
        exact ih t h
      · exfalso
        have hstep : addTeamupChamp champs p t =
            { t with champions := t.champions ++ [memberOf c] } := by
          simp [addTeamupChamp, hf, hm]
        rw [hstep] at h
        obtain ⟨_, _, _, e, he⟩ := teamupFold_ext champs ps
          { t with champions := t.champions ++ [memberOf c] }
        rw [he] at h
        have := congrArg List.length h
        simp at this

/-- The per-trait team-up step is idempotent. -/
theorem teamupStep_idem (champs : List TFTChampion) (t : TFTTrait) :
    teamupStep champs (teamupStep champs t) = teamupStep champs t := by
  by_cases hcond : (t.type == .teamup && t.champions.isEmpty) = true
  · have hstep : teamupStep champs t = processTeamup champs t := by
      unfold teamupStep; rw [if_pos hcond]
    by_cases hnil : (processTeamup champs t).champions.isEmpty = true
    · have hempty : t.champions = [] := by
        have h2 := hcond
        simp only [Bool.and_eq_true, List.isEmpty_iff] at h2
        exact h2.2
      obtain ⟨_, _, _, e, he⟩ := processTeamup_ext champs t
      have hsame : (processTeamup champs t).champions = t.champions := by
        rw [he, hempty] at hnil ⊢
        simp only [List.nil_append, List.isEmpty_iff] at hnil
        rw [hnil]
        simp
      have hid : processTeamup champs t = t :=
        teamupFold_id_of_same champs (teamupCandidates t) t hsame
      rw [hstep, hid, hstep, hid]
    · rw [hstep]
      have hty : (processTeamup champs t).type = t.type :=
        (processTeamup_ext champs t).2.2.1
      unfold teamupStep
      rw [if_neg]
      simp only [Bool.and_eq_true, not_and]
      intro _
      simpa using hnil
  · have hstep : teamupStep champs t = t := by
      unfold teamupStep; rw [if_neg hcond]
    rw [hstep, hstep]

/-- Claim C9: running the linking stage (champion-trait links followed
by team-up links) twice produces the same trait membership lists as
running it once; a recorded champion is never appended again. -/
theorem c9_linker_idempotent (champs : List TFTChampion) (ts : List TFTTrait) :
    linkAll champs (linkAll champs ts) = linkAll champs ts := by
  unfold linkAll
  have hid : linkChampTraits champs
      (linkTeamups champs (linkChampTraits champs ts)) =
      linkTeamups champs (linkChampTraits champs ts) := by
    apply linkChampTraits_id
    intro c hc tn htn
    exact coveredB_mono c tn (traitsExt_linkTeamups champs _)
      (covered_after_linkChampTraits champs ts c tn hc htn)
  rw [hid]
  unfold linkTeamups
  rw [List.map_map]
  have hfun : (teamupStep champs ∘ teamupStep champs) = teamupStep champs :=
    funext (teamupStep_idem champs)
  rw [hfun]

/-- The token pattern cannot match at a position not holding an at
sign. -/
theorem tryAtToken_head_ne (f : List Char → List Char) (c : Char)
    (rest : List Char) (hc : c ≠ '@') : tryAtToken f (c :: rest) = none := by
  simp only [tryAtToken]
  rw [if_neg (by simpa using hc)]

/-- The token pattern cannot match inside at-free text. -/
theorem tryAtToken_no_at (f : List Char → List Char) (t : List Char)
    (h : '@' ∉ t) : tryAtToken f t = none := by
  cases t with
  | nil => rfl
  | cons c rest =>
    exact tryAtToken_head_ne f c rest (fun hcc => h (by simp [hcc]))

/-- Splitting at-free text followed by an at sign. -/
theorem takeWhile_no_at (l r : List Char) (h : '@' ∉ l) :
    (l ++ '@' :: r).takeWhile (fun x => !(x == '@')) = l ∧
    (l ++ '@' :: r).dropWhile (fun x => !(x == '@')) = '@' :: r := by
  induction l with
  | nil => simp [List.takeWhile_cons, List.dropWhile_cons]
  | cons c cs ih =>
    have hc : c ≠ '@' := fun hcc => h (by simp [hcc])
    have hrest : '@' ∉ cs := fun hm => h (List.mem_cons_of_mem c hm)
    obtain ⟨h1, h2⟩ := ih hrest
    constructor
    · rw [List.cons_append, List.takeWhile_cons, if_pos (by simpa using hc), h1]
    · rw [List.cons_append, List.dropWhile_cons, if_pos (by simpa using hc), h2]

/-- The token pattern matches at the opening at sign of an embedded
token. -/
theorem tryAtToken_match (f : List Char → List Char) (tok post : List Char)
    (htok : '@' ∉ tok) (hne : tok ≠ []) :
    tryAtToken f ('@' :: (tok ++ '@' :: post)) =
      some (f tok, tok.length + 2) := by
  simp only [tryAtToken]
  rw [if_pos (by simp)]
  obtain ⟨h1, h2⟩ := takeWhile_no_at tok post htok
  simp [h1, h2, hne]

/-- One token embedded in at-free context is replaced by the callback
value and nothing else changes (fuel version). -/
theorem scanTokF_append (f : List Char → List Char) (tok post : List Char)
    (htok : '@' ∉ tok) (hne : tok ≠ []) (hpost : '@' ∉ post) :
    ∀ (pre : List Char), '@' ∉ pre →
      ∀ (fuel : Nat), (pre ++ '@' :: (tok ++ '@' :: post)).length ≤ fuel →
      ∀ (prev : Option Char),
      scanRepF (fun _ t => tryAtToken f t) fuel prev
        (pre ++ '@' :: (tok ++ '@' :: post)) =
      pre ++ f tok ++ post := by
  intro pre
  induction pre with
  | nil =>
    intro _ fuel hfuel prev
    simp only [List.nil_append] at hfuel ⊢
    cases fuel with
    | zero => simp at hfuel
    | succ fuel =>
      rw [scanRepF, tryAtToken_match f tok post htok hne]
      simp only []
      have hused : max (tok.length + 2) 1 = tok.length + 2 := by omega
      rw [hused]
      have hdrop : List.drop (tok.length + 2) ('@' :: (tok ++ '@' :: post)) =
          post := by
        rw [List.drop_succ_cons, ← List.drop_drop, List.drop_left]
        rfl
      rw [hdrop]
      have hid : scanRepF (fun _ t => tryAtToken f t) fuel
          (('@' :: (tok ++ '@' :: post)).take (tok.length + 2)).getLast? post =
          post := by
        refine scanRepF_id _ fuel post ?_ ?_ _
        · simp only [List.length_cons, List.length_append] at hfuel
          omega
        · intro _ t ht
          exact tryAtToken_no_at f t (fun hm => hpost (ht.subset hm))
      rw [hid]
  | cons c cs ih =>
    intro hpre fuel hfuel prev
    have hc : c ≠ '@' := fun hcc => hpre (by simp [hcc])
    have hcs : '@' ∉ cs := fun hm => hpre (List.mem_cons_of_mem c hm)
    cases fuel with
    | zero => simp at hfuel
    | succ fuel =>
      simp only [List.cons_append] at hfuel ⊢
      rw [scanRepF, tryAtToken_head_ne f c _ hc]
      simp only []
      rw [ih hcs fuel (by simp only [List.length_cons] at hfuel; omega) (some c)]

/-- One token embedded in at-free context is replaced by the callback
value and nothing else changes. -/
theorem scanTok_append (f : List Char → List Char) (tok post : List Char)
    (htok : '@' ∉ tok) (hne : tok ≠ []) (hpost : '@' ∉ post) :
    ∀ (pre : List Char), '@' ∉ pre → ∀ (prev : Option Char),
      scanRep (fun _ t => tryAtToken f t) prev
        (pre ++ '@' :: (tok ++ '@' :: post)) =
      pre ++ f tok ++ post := by
  intro pre hpre prev
  exact scanTokF_append f tok post htok hne hpost pre hpre _ le_rfl prev

/-- Claim C1 counterexample: on the variable map with QDamage mapping
to the three values 10, 20, 30, the token resolves through the
Modified strip but the rendering takes the entries at star indices 1
to 3, so the display is the colorized 20 slash 30: it is not the
claimed colorized 10 slash 20 slash 30, and the value 10 does not
appear in the output at all. -/
theorem c1_counterexample :
    abilityReplaceTokens "@ModifiedQDamage@" [("QDamage", [10, 20, 30])] =
      starSpan "#a67c52" "20" ++ mutedSlash ++ starSpan "#94a3b8" "30" ∧
    abilityReplaceTokens "@ModifiedQDamage@" [("QDamage", [10, 20, 30])] ≠
      starSpan "#a67c52" "10" ++ mutedSlash ++ starSpan "#94a3b8" "20" ++
        mutedSlash ++ starSpan "#e6a030" "30" ∧
    containsS (abilityReplaceTokens "@ModifiedQDamage@"
      [("QDamage", [10, 20, 30])]) "10" = false := by
  refine ⟨by decide, by decide, by decide⟩

/-- Claim C1 (amended): with variables QDamage mapping to 10, 20, 30
and any description consisting of the token surrounded by at-free
text, resolution strips the Modified lead-in and matches QDamage, and
the token renders as the tier-colorized sequence of the values at star
indices 1 to 3 of the stored sequence, here 20 and 30, each colorized
and separated by the muted slash. -/
theorem c1_modified_fallback (pre post : List Char)
    (hpre : '@' ∉ pre) (hpost : '@' ∉ post) :
    resolveVar [("QDamage", [10, 20, 30])] "ModifiedQDamage" =
      some [10, 20, 30] ∧
    renderStarToken [10, 20, 30] (JSNum.ofInt 1) =
      starSpan "#a67c52" "20" ++ mutedSlash ++ starSpan "#94a3b8" "30" ∧
    abilityReplaceTokens
      (String.mk (pre ++ "@ModifiedQDamage@".toList ++ post))
      [("QDamage", [10, 20, 30])] =
      String.mk (pre ++ (starSpan "#a67c52" "20" ++ mutedSlash ++
        starSpan "#94a3b8" "30").toList ++ post) := by
  refine ⟨by decide, by decide, ?_⟩
  unfold abilityReplaceTokens
  refine congrArg String.mk ?_
  show replaceTokens (abilityToken [("QDamage", [10, 20, 30])])
      (pre ++ "@ModifiedQDamage@".toList ++ post) =
    pre ++ (starSpan "#a67c52" "20" ++ mutedSlash ++
      starSpan "#94a3b8" "30").toList ++ post
  have hshape : pre ++ "@ModifiedQDamage@".toList ++ post =
      pre ++ '@' :: ("ModifiedQDamage".toList ++ '@' :: post) := by
    simp
  rw [hshape]
  unfold replaceTokens
  rw [scanTok_append (abilityToken [("QDamage", [10, 20, 30])])
    "ModifiedQDamage".toList post (by decide) (by decide) hpost pre hpre none]
  have hval : abilityToken [("QDamage", [10, 20, 30])] "ModifiedQDamage".toList =
      (starSpan "#a67c52" "20" ++ mutedSlash ++
        starSpan "#94a3b8" "30").toList := by
    decide
  rw [hval]

/-- Witness for C1 (amended): the bare token description. -/
theorem c1_witness :
    abilityReplaceTokens "@ModifiedQDamage@" [("QDamage", [10, 20, 30])] =
      String.mk (([] : List Char) ++ (starSpan "#a67c52" "20" ++ mutedSlash ++
        starSpan "#94a3b8" "30").toList ++ []) :=
  (c1_modified_fallback [] [] (by decide) (by decide)).2.2

/-- Claim C7: when all displayed per-tier values of a token are
identical the rendering is that single value, uncolored; when they
differ every tier value is rendered in the fixed tier-color sequence
separated by the muted slash. -/
theorem c7_tier_collapse (vals : List JSNum) (mult : JSNum) (s : String)
    (rest : List String) (hsv : starVals vals mult = s :: rest) :
    ((∀ x ∈ rest, x = s) → renderStarToken vals mult = s) ∧
    ((∃ x ∈ rest, x ≠ s) → renderStarToken vals mult = colorJoin (s :: rest)) := by
  have hred : renderStarToken vals mult =
      if (rest.all fun v => v == s) = true then s else colorJoin (s :: rest) := by
    unfold renderStarToken
    rw [hsv]
  rw [hred]
  constructor
  · intro h
    rw [if_pos]
    rw [List.all_eq_true]
    intro x hx
    simpa using h x hx
  · rintro ⟨x, hx, hne⟩
    rw [if_neg]
    rw [List.all_eq_true]
    intro hall
    exact hne (by simpa using hall x hx)

/-- Witness for C7: the all-equal sequence 5, 5, 5 renders as the bare
value 5, while 10, 20, 30 renders as the colorized breakdown of its
star-index values 20 and 30. -/
theorem c7_witness :
    renderStarToken [5, 5, 5] (JSNum.ofInt 1) = "5" ∧
    renderStarToken [10, 20, 30] (JSNum.ofInt 1) = colorJoin ["20", "30"] :=
  ⟨(c7_tier_collapse [5, 5, 5] (JSNum.ofInt 1) "5" ["5"] (by decide)).1
      (by decide),
   (c7_tier_collapse [10, 20, 30] (JSNum.ofInt 1) "20" ["30"] (by decide)).2
      ⟨"30", by decide, by decide⟩⟩

/-- Lowercasing fixes a plain-class character. -/
theorem plainClass_toLower {c : Char} (h : plainClassChar c = true) :
    c.toLower = c := by
  unfold plainClassChar at h
  simp only [Bool.and_eq_true] at h
  simpa using h.1.2

/-- A plain-class character is not a digit. -/
theorem plainClass_notDigit {c : Char} (h : plainClassChar c = true) :
    c.isDigit = false := by
  unfold plainClassChar at h
  simp only [Bool.and_eq_true] at h
  simpa using h.2

/-- A nonempty pattern cannot case-insensitively match at the head of
the empty text. -/
theorem ciStarts_nil (p : Char) (ps : List Char) :
    ciStarts (p :: ps) [] = false := by
  simp [ciStarts, lowerL]

/-- The head of a case-insensitive match lowers to the lowered pattern
head. -/
theorem ciStarts_head {p : Char} {ps t : List Char}
    (h : ciStarts (p :: ps) t = true) :
    ∃ c t2, t = c :: t2 ∧ c.toLower = p.toLower := by
  cases t with
  | nil => rw [ciStarts_nil] at h; exact absurd h (by simp)
  | cons c t2 =>
    refine ⟨c, t2, rfl, ?_⟩
    unfold ciStarts at h
    rw [beq_iff_eq] at h
    simpa [lowerL] using congrArg List.head? h

/-- On plain-class text a case-insensitive match forces the head to be
the lowered pattern head. -/
theorem ciStarts_class_head {p : Char} {ps t : List Char}
    (hmatch : ciStarts (p :: ps) t = true)
    (hclass : ∀ c ∈ t, plainClassChar c = true) :
    ∃ t2, t = p.toLower :: t2 := by
  obtain ⟨c, t2, rfl, hlow⟩ := ciStarts_head hmatch
  have hfix : c.toLower = c := plainClass_toLower (hclass c (by simp))
  exact ⟨t2, by rw [← hlow, hfix]⟩

/-- A pattern whose lowered head is outside the class cannot match
plain-class text. -/
theorem ciStarts_class_false (p : Char) (ps t : List Char)
    (hclass : ∀ c ∈ t, plainClassChar c = true)
    (hbad : plainClassChar p.toLower = false) :
    ciStarts (p :: ps) t = false := by
  by_contra hcon
  rw [Bool.not_eq_false] at hcon
  obtain ⟨t2, rfl⟩ := ciStarts_class_head hcon hclass
  exact absurd (hclass p.toLower (by simp)) (by simp [hbad])

/-- The head of a case-sensitive prefix match is the pattern head. -/
theorem isPrefixOf_head {p : Char} {ps t : List Char}
    (h : (p :: ps).isPrefixOf t = true) : ∃ t2, t = p :: t2 := by
  rw [List.isPrefixOf_iff_prefix] at h
  obtain ⟨r, rfl⟩ := h
  exact ⟨ps ++ r, by simp⟩

/-- A pattern whose head is outside the class cannot prefix-match
plain-class text. -/
theorem isPrefixOf_class_false (p : Char) (ps t : List Char)
    (hclass : ∀ c ∈ t, plainClassChar c = true)
    (hbad : plainClassChar p = false) :
    (p :: ps).isPrefixOf t = false := by
  by_contra hcon
  rw [Bool.not_eq_false] at hcon
  obtain ⟨t2, rfl⟩ := isPrefixOf_head hcon
  exact absurd (hclass p (by simp)) (by simp [hbad])

/-- A case-insensitive head match inside a suffix yields
case-insensitive containment in the whole text. -/
theorem ciStarts_containsCIL {pat t cs : List Char}
    (h : ciStarts pat t = true) (hsuf : t <:+ cs) :
    containsCIL cs pat = true := by
  unfold containsCIL containsL
  rw [List.any_eq_true]
  refine ⟨lowerL t, ?_, ?_⟩
  · rw [List.mem_tails]
    exact List.IsSuffix.map Char.toLower hsuf
  · unfold ciStarts at h
    rw [beq_iff_eq] at h
    rw [List.isPrefixOf_iff_prefix]
    refine ⟨lowerL (t.drop pat.length), ?_⟩
    rw [← h]
    unfold lowerL
    rw [← List.map_append, List.take_append_drop]

/-- Composition of adjacent case-insensitive matches. -/
theorem ciStarts_append {a b t : List Char} (h1 : ciStarts a t = true)
    (h2 : ciStarts b (t.drop a.length) = true) :
    ciStarts (a ++ b) t = true := by
  unfold ciStarts at h1 h2 ⊢
  rw [beq_iff_eq] at h1 h2 ⊢
  rw [List.length_append, List.take_add]
  unfold lowerL at h1 h2 ⊢
  rw [List.map_append, List.map_append, h1, h2]

/-- The double-whitespace detector is monotone under prepending. -/
theorem hasDoubleWS_append (u t : List Char) (h : hasDoubleWS t = true) :
    hasDoubleWS (u ++ t) = true := by
  induction u with
  | nil => simpa using h
  | cons a u ih =>
    rw [show (a :: u) ++ t = a :: (u ++ t) from rfl]
    cases hu : u ++ t with
    | nil =>
      rw [hu] at ih
      simp [hasDoubleWS] at ih
    | cons b rest =>
      have hd : hasDoubleWS (b :: rest) = true := by rw [← hu]; exact ih
      rw [hasDoubleWS, hd]
      simp

/-- The double-whitespace detector is monotone under taking
suffixes. -/
theorem hasDoubleWS_suffix {t cs : List Char} (hsuf : t <:+ cs)
    (h : hasDoubleWS t = true) : hasDoubleWS cs = true := by
  obtain ⟨u, rfl⟩ := hsuf
  exact hasDoubleWS_append u t h

/-- A whitespace run of length at least two exposes adjacent
whitespace. -/
theorem takeWhile_two_ws {t : List Char}
    (h : 2 ≤ (t.takeWhile jsIsSpace).length) : hasDoubleWS t = true := by
  cases t with
  | nil => simp [List.takeWhile] at h
  | cons a rest =>
    cases rest with
    | nil =>
      rw [List.takeWhile_cons] at h
      split at h <;> simp_all [List.takeWhile]
    | cons b rest2 =>
      rw [List.takeWhile_cons] at h
      split at h
      · rename_i ha
        rw [List.takeWhile_cons] at h
        split at h
        · rename_i hb
          unfold hasDoubleWS
          simp [ha, hb]
        · simp at h
      · simp at h

/-- The rules-block suppression cannot fire on plain-class text. -/
theorem tryRules_class_none (t : List Char)
    (hclass : ∀ c ∈ t, plainClassChar c = true) (prev : Option Char) :
    tryRules prev t = none := by
  have hfalse : ciStarts "<rules>".toList t = false := by
    rw [(by decide : "<rules>".toList = '<' :: "rules>".toList)]
    exact ciStarts_class_false '<' _ t hclass (by decide)
  simp only [tryRules, hfalse]
  simp

/-- The unit-property line suppression cannot fire on plain-class
text. -/
theorem tryUnitLine_class_none (t : List Char)
    (hclass : ∀ c ∈ t, plainClassChar c = true) (prev : Option Char) :
    tryUnitLine prev t = none := by
  have hfalse : ∀ j, ciStarts "@TFTUnitProperty".toList (t.drop j) = false := by
    intro j
    rw [(by decide : "@TFTUnitProperty".toList =
      '@' :: "TFTUnitProperty".toList)]
    refine ciStarts_class_false '@' _ _ ?_ (by decide)
    intro c hc
    exact hclass c ((List.drop_suffix j t).subset hc)
  simp only [tryUnitLine, hfalse]
  simp

/-- The current-stats label suppression cannot fire on text free of
the banned label phrases. -/
theorem tryCurrentLabel_ban_none {cs : List Char}
    (hban : ∀ p ∈ kwBanList, containsCIL cs p.toList = false)
    (t : List Char) (ht : t <:+ cs) (prev : Option Char) :
    tryCurrentLabel prev t = none := by
  by_cases h1 : ciStarts "Current ".toList t = true
  · have halt : ∀ (alt full : String),
        "Current ".toList ++ alt.toList = full.toList → full ∈ kwBanList →
        ciStarts alt.toList (t.drop 8) = false := by
      intro alt full hcat hmem
      by_contra hc
      rw [Bool.not_eq_false] at hc
      have h2 : ciStarts alt.toList (t.drop ("Current ".toList).length) = true := by
        rw [(by decide : ("Current ".toList).length = 8)]
        exact hc
      have h3 := ciStarts_append h1 h2
      rw [hcat] at h3
      have h4 := ciStarts_containsCIL h3 ht
      rw [hban full hmem] at h4
      exact absurd h4 (by simp)
    have hb1 := halt "Bonus Stats" "Current Bonus Stats" (by decide) (by decide)
    have hb2 := halt "Stats" "Current Stats" (by decide) (by decide)
    have hb3 := halt "Serpents" "Current Serpents" (by decide) (by decide)
    simp only [tryCurrentLabel, h1, hb1, hb2, hb3]
    simp
  · simp only [tryCurrentLabel, h1]
    simp

/-- The expandRow extraction is the identity with no rows on
plain-class text. -/
theorem expandAuxF_class_id (effects : List Effect) :
    ∀ (fuel : Nat) (t : List Char), (∀ c ∈ t, plainClassChar c = true) →
      expandAuxF effects fuel t = (t, []) := by
  intro fuel
  induction fuel with
  | zero => intro t _; rfl
  | succ fuel ih =>
    intro t h
    cases t with
    | nil => rfl
    | cons c rest =>
      have hfalse : ciStarts "<expandRow>".toList (c :: rest) = false := by
        rw [(by decide : "<expandRow>".toList = '<' :: "expandRow>".toList)]
        exact ciStarts_class_false '<' _ _ h (by decide)
      have hr : expandAuxF effects fuel rest = (rest, []) :=
        ih rest (fun x hx => h x (List.mem_cons_of_mem c hx))
      simp only [expandAuxF, hfalse, hr]
      simp

/-- The row extraction is the identity with no rows on plain-class
text. -/
theorem rowAuxF_class_id (effects : List Effect) :
    ∀ (fuel idx : Nat) (t : List Char), (∀ c ∈ t, plainClassChar c = true) →
      rowAuxF effects fuel idx t = (t, []) := by
  intro fuel
  induction fuel with
  | zero => intro idx t _; rfl
  | succ fuel ih =>
    intro idx t h
    cases t with
    | nil => rfl
    | cons c rest =>
      have hfalse : ciStarts "<row>".toList (c :: rest) = false := by
        rw [(by decide : "<row>".toList = '<' :: "row>".toList)]
        exact ciStarts_class_false '<' _ _ h (by decide)
      have hr : rowAuxF effects fuel idx rest = (rest, []) :=
        ih idx rest (fun x hx => h x (List.mem_cons_of_mem c hx))
      simp only [rowAuxF, hfalse, hr]
      simp

/-- No break tag opens inside plain-class text. -/
theorem parseBrTag_class_none (t : List Char)
    (hclass : ∀ c ∈ t, plainClassChar c = true) :
    parseBrTag t = none := by
  have hfalse : ciStarts "<br".toList t = false := by
    rw [(by decide : "<br".toList = '<' :: "br".toList)]
    exact ciStarts_class_false '<' _ _ hclass (by decide)
  simp only [parseBrTag, hfalse]
  simp

/-- The break-tag split of plain-class text is one segment. -/
theorem splitBrF_class_id :
    ∀ (fuel : Nat) (t acc : List Char), (∀ c ∈ t, plainClassChar c = true) →
      splitBrF fuel t acc = [acc.reverse ++ t] := by
  intro fuel
  induction fuel with
  | zero => intro t acc _; rfl
  | succ fuel ih =>
    intro t acc h
    cases t with
    | nil => simp [splitBrF]
    | cons c rest =>
      have hbr := parseBrTag_class_none (c :: rest) h
      have hr := ih rest (c :: acc) (fun x hx => h x (List.mem_cons_of_mem c hx))
      simp [splitBrF, hbr, hr]

/-- Plain-class text holds no break groups. -/
theorem countBrGroups_class_zero (fuel : Nat) (t : List Char)
    (hclass : ∀ c ∈ t, plainClassChar c = true) :
    countBrGroups fuel t = (0, 0) := by
  cases fuel with
  | zero => rfl
  | succ fuel =>
    have hg : parseBrGroup t = none := by
      simp [parseBrGroup, parseBrTag_class_none t hclass]
    simp [countBrGroups, hg]

/-- The break-run collapse cannot fire on plain-class text. -/
theorem tryBrRun_class_none (t : List Char)
    (hclass : ∀ c ∈ t, plainClassChar c = true) (prev : Option Char) :
    tryBrRun prev t = none := by
  simp [tryBrRun, countBrGroups_class_zero t.length t hclass]

/-- Leading break-group removal is the identity on plain-class text. -/
theorem stripLeadBr_class_id (t : List Char)
    (hclass : ∀ c ∈ t, plainClassChar c = true) :
    stripLeadBr t = t := by
  simp [stripLeadBr, countBrGroups_class_zero t.length t hclass]

/-- Trailing break-group removal is the identity on plain-class
text. -/
theorem stripTrailBr_class_id : ∀ (t : List Char),
    (∀ c ∈ t, plainClassChar c = true) → stripTrailBr t = t := by
  intro t
  induction t with
  | nil => intro _; rfl
  | cons c rest ih =>
    intro h
    have hall : isAllBrGroups (c :: rest) = false := by
      simp [isAllBrGroups, countBrGroups_class_zero _ _ h]
    simp [stripTrailBr, hall, ih (fun x hx => h x (List.mem_cons_of_mem c hx))]

/-- The icon pass cannot fire on plain-class text. -/
theorem tryIcon_class_none (t : List Char)
    (hclass : ∀ c ∈ t, plainClassChar c = true) (prev : Option Char) :
    tryIcon prev t = none := by
  have hfalse : ("%i:".toList).isPrefixOf t = false := by
    rw [(by decide : "%i:".toList = '%' :: "i:".toList)]
    exact isPrefixOf_class_false '%' _ t hclass (by decide)
  simp only [tryIcon, hfalse]
  simp

/-- The entity pass cannot fire on plain-class text. -/
theorem tryNbsp_class_none (t : List Char)
    (hclass : ∀ c ∈ t, plainClassChar c = true) (prev : Option Char) :
    tryNbsp prev t = none := by
  have hfalse : ("&nbsp;".toList).isPrefixOf t = false := by
    rw [(by decide : "&nbsp;".toList = '&' :: "nbsp;".toList)]
    exact isPrefixOf_class_false '&' _ t hclass (by decide)
  simp only [tryNbsp, hfalse]
  simp

/-- The tag pass cannot fire on plain-class text. -/
theorem tryTag_class_none (t : List Char)
    (hclass : ∀ c ∈ t, plainClassChar c = true) (prev : Option Char) :
    tryTag prev t = none := by
  cases t with
  | nil => rfl
  | cons c rest =>
    have hne : (c == '<') = false := by
      by_contra hc
      rw [Bool.not_eq_false, beq_iff_eq] at hc
      subst hc
      exact absurd (hclass '<' (by simp)) (by decide)
    simp [tryTag, hne]

/-- The question-parenthesis pass cannot fire on plain-class text. -/
theorem tryParenQ_class_none (t : List Char)
    (hclass : ∀ c ∈ t, plainClassChar c = true) (prev : Option Char) :
    tryParenQ prev t = none := by
  have hfalse : ("(?)".toList).isPrefixOf t = false := by
    rw [(by decide : "(?)".toList = '(' :: "?)".toList)]
    exact isPrefixOf_class_false '(' _ t hclass (by decide)
  simp only [tryParenQ, hfalse]
  simp

/-- The empty-parenthesis pass cannot fire on plain-class text. -/
theorem tryParenEmpty_class_none (t : List Char)
    (hclass : ∀ c ∈ t, plainClassChar c = true) (prev : Option Char) :
    tryParenEmpty prev t = none := by
  cases t with
  | nil => rfl
  | cons c rest =>
    have hne : (c == '(') = false := by
      by_contra hc
      rw [Bool.not_eq_false, beq_iff_eq] at hc
      subst hc
      exact absurd (hclass '(' (by simp)) (by decide)
    simp [tryParenEmpty, hne]

/-- The whitespace-comma pass cannot fire on plain-class text. -/
theorem tryWsComma_class_none (t : List Char)
    (hclass : ∀ c ∈ t, plainClassChar c = true) (prev : Option Char) :
    tryWsComma prev t = none := by
  by_cases hrun : (t.takeWhile jsIsSpace).isEmpty = true
  · simp [tryWsComma, hrun]
  · cases hd : t.dropWhile jsIsSpace with
    | nil => simp [tryWsComma, hrun, hd]
    | cons d rest2 =>
      have hdm : d ∈ t := by
        have hsplit : t.takeWhile jsIsSpace ++ t.dropWhile jsIsSpace = t := by
          simp
        rw [← hsplit, hd]
        exact List.mem_append_right _ (by simp)
      have hne : (d == ',') = false := by
        by_contra hc
        rw [Bool.not_eq_false, beq_iff_eq] at hc
        subst hc
        exact absurd (hclass ',' hdm) (by decide)
      simp [tryWsComma, hrun, hd, hne]

/-- The whitespace-collapse pass cannot fire on text with no doubled
whitespace. -/
theorem tryWsCollapse_ws_none (t : List Char)
    (hdws : hasDoubleWS t = false) (prev : Option Char) :
    tryWsCollapse prev t = none := by
  have hlt : ¬ 2 ≤ (t.takeWhile jsIsSpace).length := by
    intro hc
    rw [takeWhile_two_ws hc] at hdws
    exact absurd hdws (by simp)
  simp [tryWsCollapse, hlt]

/-- The trim is the identity on text whose ends are not whitespace. -/
theorem jsTrim_id (t : List Char)
    (hhead : ∀ c, t.head? = some c → jsIsSpace c = false)
    (hlast : ∀ c, t.getLast? = some c → jsIsSpace c = false) :
    jsTrim t = t := by
  have h1 : t.dropWhile jsIsSpace = t := by
    cases t with
    | nil => rfl
    | cons c rest =>
      have hc := hhead c rfl
      simp [List.dropWhile_cons, hc]
  have h2 : t.reverse.dropWhile jsIsSpace = t.reverse := by
    cases hrev : t.reverse with
    | nil => rfl
    | cons d rest =>
      have hd : t.getLast? = some d := by
        rw [← List.head?_reverse, hrev]
        rfl
      have hds := hlast d hd
      simp [List.dropWhile_cons, hds]
  unfold jsTrim
  rw [h1, h2, List.reverse_reverse]

/-- cleanLine is the identity on plain-class text that is already
whitespace-normalized. -/
theorem cleanLine_class_id (t : List Char)
    (hclass : ∀ c ∈ t, plainClassChar c = true)
    (hdws : hasDoubleWS t = false)
    (hhead : ∀ c, t.head? = some c → jsIsSpace c = false)
    (hlast : ∀ c, t.getLast? = some c → jsIsSpace c = false) :
    cleanLine t = t := by
  have hsub : ∀ u, u <:+ t → ∀ c ∈ u, plainClassChar c = true :=
    fun u hu c hc => hclass c (hu.subset hc)
  have hdwsuf : ∀ u, u <:+ t → hasDoubleWS u = false := by
    intro u hu
    by_contra hc
    rw [Bool.not_eq_false] at hc
    rw [hasDoubleWS_suffix hu hc] at hdws
    exact absurd hdws (by simp)
  unfold cleanLine
  rw [scanRep_id _ t (fun p u hu => tryIcon_class_none u (hsub u hu) p) none]
  rw [scanRep_id _ t (fun p u hu => tryNbsp_class_none u (hsub u hu) p) none]
  rw [scanRep_id _ t (fun p u hu => tryTag_class_none u (hsub u hu) p) none]
  rw [scanRep_id _ t (fun p u hu => tryParenQ_class_none u (hsub u hu) p) none]
  rw [scanRep_id _ t (fun p u hu => tryParenEmpty_class_none u (hsub u hu) p) none]
  rw [scanRep_id _ t (fun p u hu => tryWsComma_class_none u (hsub u hu) p) none]
  rw [scanRep_id _ t (fun p u hu => tryWsCollapse_ws_none u (hdwsuf u hu) p) none]
  exact jsTrim_id t hhead hlast

/-- A nonempty plain-class line whose head is not whitespace is not
garbage. -/
theorem isGarbageLine_class_false (t : List Char)
    (hclass : ∀ c ∈ t, plainClassChar c = true)
    (hhead : ∀ c, t.head? = some c → jsIsSpace c = false)
    (hne : t ≠ []) :
    isGarbageLine t = false := by
  cases t with
  | nil => exact absurd rfl hne
  | cons c rest =>
    have hcC := hclass c (by simp)
    have hcA : c.isAlpha = true := by
      have h1 : (c.isLower || c == ' ') = true := by
        unfold plainClassChar at hcC
        simp only [Bool.and_eq_true] at hcC
        exact hcC.1.1
      have h2 : c.isLower = true ∨ c = ' ' := by simpa using h1
      rcases h2 with hl | hsp
      · simp [Char.isAlpha, hl]
      · subst hsp
        exact absurd (hhead ' ' rfl) (by decide)
    have hdrop : (c :: rest).dropWhile (fun x => !(x == ':')) = [] := by
      rw [List.dropWhile_eq_nil_iff]
      intro x hx
      by_contra hc2
      simp at hc2
      subst hc2
      exact absurd (hclass ':' hx) (by decide)
    have hany : (c :: rest).any Char.isAlpha = true := by
      simp [hcA]
    simp [isGarbageLine, hdrop, hany]

/-- Variable resolution is the identity on at-free text. -/
theorem resolveVars_class_id (t : List Char) (e : Effect)
    (hclass : ∀ c ∈ t, plainClassChar c = true) :
    resolveVarsInTextL t e = t := by
  unfold resolveVarsInTextL replaceTokens
  refine scanRep_id _ t ?_ none
  intro prev u hu
  refine tryAtToken_no_at _ u ?_
  intro hat
  exact absurd (hclass '@' (hu.subset hat)) (by decide)

/-- The numeric colorizer cannot fire on digit-free text. -/
theorem tryNum_class_none (t : List Char)
    (hclass : ∀ c ∈ t, plainClassChar c = true) (prev : Option Char) :
    tryNum prev t = none := by
  have hseg : parseNumSeg t = none := by
    cases t with
    | nil => rfl
    | cons c rest =>
      have hcd : c.isDigit = false := plainClass_notDigit (hclass c (by simp))
      simp [parseNumSeg, List.takeWhile_cons, hcd]
  simp [tryNum, hseg]

/-- A matched keyword token sequence whose last token is a literal
exhibits that literal matching at some suffix of the text. -/
theorem matchKwToks_last_lit (ci : Bool) (q : List Char) :
    ∀ (toks : List KwTok), toks.getLast? = some (KwTok.lit q) →
    ∀ (t : List Char) (n : Nat), matchKwToks ci toks t = some n →
    ∃ tt, tt <:+ t ∧ litStarts ci q tt = true := by
  intro toks
  induction toks with
  | nil => intro hlast; simp at hlast
  | cons tk rest ih =>
    intro hlast t n hm
    cases rest with
    | nil =>
      have htk : tk = KwTok.lit q := by simpa using hlast
      subst htk
      rw [matchKwToks] at hm
      by_cases hls : litStarts ci q t = true
      · exact ⟨t, List.suffix_rfl, hls⟩
      · rw [if_neg hls] at hm
        exact absurd hm (by simp)
    | cons tk2 rest2 =>
      have hlast2 : (tk2 :: rest2).getLast? = some (KwTok.lit q) := by
        simpa using hlast
      cases tk with
      | lit p =>
        rw [matchKwToks] at hm
        by_cases hls : litStarts ci p t = true
        · rw [if_pos hls, Option.map_eq_some'] at hm
          obtain ⟨k, hmm, _⟩ := hm
          obtain ⟨tt, hsuf, h2⟩ := ih hlast2 _ k hmm
          exact ⟨tt, hsuf.trans (List.drop_suffix _ _), h2⟩
        · rw [if_neg hls] at hm
          exact absurd hm (by simp)
      | optLit p =>
        rw [matchKwToks] at hm
        by_cases hls : litStarts ci p t = true
        · rw [if_pos hls] at hm
          cases hmm : matchKwToks ci (tk2 :: rest2) (t.drop p.length) with
          | none =>
            rw [hmm] at hm
            simp only [Option.map_none', Option.orElse] at hm
            exact ih hlast2 t n hm
          | some k =>
            obtain ⟨tt, hsuf, h2⟩ := ih hlast2 _ k hmm
            exact ⟨tt, hsuf.trans (List.drop_suffix _ _), h2⟩
        · rw [if_neg hls] at hm
          simp only [Option.orElse] at hm
          exact ih hlast2 t n hm
      | ws1 =>
        rw [matchKwToks] at hm
        by_cases hws : (t.takeWhile jsIsSpace).isEmpty = true
        · rw [if_pos hws] at hm
          exact absurd hm (by simp)
        · rw [if_neg hws, Option.map_eq_some'] at hm
          obtain ⟨k, hmm, _⟩ := hm
          obtain ⟨tt, hsuf, h2⟩ := ih hlast2 _ k hmm
          exact ⟨tt, hsuf.trans (List.drop_suffix _ _), h2⟩

/-- A case-insensitive keyword sequence ending in a banned phrase
cannot match inside text free of that phrase. -/
theorem kwToks_ci_none (toks : List KwTok) (q : List Char)
    (hlast : toks.getLast? = some (KwTok.lit q))
    {cs : List Char} (hban1 : containsCIL cs q = false)
    (t : List Char) (ht : t <:+ cs) :
    matchKwToks true toks t = none := by
  cases hmk : matchKwToks true toks t with
  | none => rfl
  | some n =>
    obtain ⟨tt, hsuf, hls⟩ := matchKwToks_last_lit true q toks hlast t n hmk
    simp only [litStarts, if_pos] at hls
    have h2 := ciStarts_containsCIL hls (hsuf.trans ht)
    rw [hban1] at h2
    exact absurd h2 (by simp)

/-- A case-sensitive keyword sequence ending in a literal headed by a
character outside the class cannot match inside plain-class text. -/
theorem kwToks_cs_none (toks : List KwTok) (p : Char) (ps : List Char)
    (hlast : toks.getLast? = some (KwTok.lit (p :: ps)))
    {cs : List Char} (hclass : ∀ c ∈ cs, plainClassChar c = true)
    (hbad : plainClassChar p = false)
    (t : List Char) (ht : t <:+ cs) :
    matchKwToks false toks t = none := by
  cases hmk : matchKwToks false toks t with
  | none => rfl
  | some n =>
    obtain ⟨tt, hsuf, hls⟩ := matchKwToks_last_lit false (p :: ps) toks hlast t n hmk
    simp only [litStarts, if_neg] at hls
    obtain ⟨t2, rfl⟩ := isPrefixOf_head hls
    exact absurd (hclass p ((hsuf.trans ht).subset (by simp))) (by simp [hbad])

/-- No stat-keyword pattern matches inside plain-class text free of
the banned phrases. -/
theorem tryKw_ban_none {cs : List Char}
    (hclass : ∀ c ∈ cs, plainClassChar c = true)
    (hban : ∀ p ∈ kwBanList, containsCIL cs p.toList = false) :
    ∀ pat ∈ kwPatterns, ∀ prev t, t <:+ cs → tryKw pat prev t = none := by
  intro pat hpat prev t ht
  have hnone : matchKwToks pat.ci pat.toks t = none := by
    fin_cases hpat
    · exact kwToks_ci_none _ ("Health".toList) (by rfl)
        (hban "Health" (by decide)) t ht
    · exact kwToks_ci_none _ ("Critical Strike Chance".toList) (by rfl)
        (hban "Critical Strike Chance" (by decide)) t ht
    · exact kwToks_ci_none _ ("Critical Strike Damage".toList) (by rfl)
        (hban "Critical Strike Damage" (by decide)) t ht
    · exact kwToks_ci_none _ ("Critical Strike".toList) (by rfl)
        (hban "Critical Strike" (by decide)) t ht
    · exact kwToks_ci_none _ ("Damage Reduction".toList) (by rfl)
        (hban "Damage Reduction" (by decide)) t ht
    · exact kwToks_ci_none _ ("Magic Resist".toList) (by rfl)
        (hban "Magic Resist" (by decide)) t ht
    · exact kwToks_ci_none _ ("Attack Damage".toList) (by rfl)
        (hban "Attack Damage" (by decide)) t ht
    · exact kwToks_ci_none _ ("Ability Power".toList) (by rfl)
        (hban "Ability Power" (by decide)) t ht
    · exact kwToks_ci_none _ ("Attack Speed".toList) (by rfl)
        (hban "Attack Speed" (by decide)) t ht
    · exact kwToks_ci_none _ ("Mana Regen".toList) (by rfl)
        (hban "Mana Regen" (by decide)) t ht
    · exact kwToks_ci_none _ ("Crit Chance".toList) (by rfl)
        (hban "Crit Chance" (by decide)) t ht
    · exact kwToks_ci_none _ ("Crit Damage".toList) (by rfl)
        (hban "Crit Damage" (by decide)) t ht
    · exact kwToks_ci_none _ ("Magic Damage".toList) (by rfl)
        (hban "Magic Damage" (by decide)) t ht
    · exact kwToks_ci_none _ ("Damage Amp".toList) (by rfl)
        (hban "Damage Amp" (by decide)) t ht
    · exact kwToks_ci_none _ ("Omnivamp".toList) (by rfl)
        (hban "Omnivamp" (by decide)) t ht
    · exact kwToks_ci_none _ ("Durability".toList) (by rfl)
        (hban "Durability" (by decide)) t ht
    · exact kwToks_ci_none _ ("Health".toList) (by rfl)
        (hban "Health" (by decide)) t ht
    · exact kwToks_ci_none _ ("Armor".toList) (by rfl)
        (hban "Armor" (by decide)) t ht
    · exact kwToks_ci_none _ ("Shield".toList) (by rfl)
        (hban "Shield" (by decide)) t ht
    · exact kwToks_cs_none _ 'M' ("ana".toList) (by rfl) hclass (by decide) t ht
    · exact kwToks_cs_none _ 'A' ("D".toList) (by rfl) hclass (by decide) t ht
    · exact kwToks_cs_none _ 'A' ("P".toList) (by rfl) hclass (by decide) t ht
  simp only [tryKw, hnone]
  simp

/-- The keyword scanner is the identity where the pattern never
matches. -/
theorem kwScanF_id (pat : KwPattern) :
    ∀ (fuel : Nat) (prev : Option Char) (s : List Char)
      (ph : List (List Char)),
      (∀ prev2 u, u <:+ s → tryKw pat prev2 u = none) →
      kwScanF pat fuel prev s ph = (s, ph) := by
  intro fuel
  induction fuel with
  | zero => intro prev s ph _; rfl
  | succ fuel ih =>
    intro prev s ph h
    cases s with
    | nil => rfl
    | cons c rest =>
      have h0 := h prev (c :: rest) List.suffix_rfl
      have hr := ih (some c) rest ph
        (fun p2 u hu => h p2 u (hu.trans (List.suffix_cons c rest)))
      simp only [kwScanF, h0, hr]

/-- The fold of keyword scans is the identity where no pattern ever
matches. -/
theorem kwFold_id (s : List Char) (ph : List (List Char)) :
    ∀ (pats : List KwPattern),
      (∀ pat ∈ pats, ∀ prev t, t <:+ s → tryKw pat prev t = none) →
      pats.foldl (fun acc pat => kwScanF pat acc.1.length none acc.1 acc.2)
        (s, ph) = (s, ph) := by
  intro pats
  induction pats with
  | nil => intro _; rfl
  | cons pat rest ih =>
    intro h
    rw [List.foldl_cons]
    have h1 : kwScanF pat s.length none s ph = (s, ph) :=
      kwScanF_id pat s.length none s ph
        (fun p2 u hu => h pat (by simp) p2 u hu)
    show List.foldl _ (kwScanF pat s.length none s ph) rest = (s, ph)
    rw [h1]
    exact ih (fun p hp prev t ht => h p (by simp [hp]) prev t ht)

/-- The placeholder restoration cannot fire on plain-class text. -/
theorem tryRestore_class_none (ph : List (List Char)) (t : List Char)
    (hclass : ∀ c ∈ t, plainClassChar c = true) (prev : Option Char) :
    tryRestore ph prev t = none := by
  cases t with
  | nil => rfl
  | cons c rest =>
    have hne : (c == Char.ofNat 0) = false := by
      by_contra hc
      rw [Bool.not_eq_false, beq_iff_eq] at hc
      subst hc
      exact absurd (hclass (Char.ofNat 0) (by simp)) (by decide)
    simp only [tryRestore, hne]
    simp

/-- C6. The trait text resolver is the identity (with no detail rows)
on plain lowercase prose: text of lowercase letters and single spaces,
already whitespace-normalized, free of the colorizable stat phrases —
in particular on any such description with no at-tokens and no markup.
The original claim, quantified over all token-free markup-free
descriptions, is refuted by the counterexample theorem: keyword and
numeric colorization rewrite such descriptions. -/
theorem c6_plain_roundtrip (s : String) (effects : List Effect)
    (h : plainTraitText s.toList = true) :
    resolveTraitDesc s effects = ⟨s, []⟩ := by
  unfold plainTraitText at h
  simp only [Bool.and_eq_true] at h
  obtain ⟨⟨⟨⟨hall0, hdws0⟩, hhead0⟩, hlast0⟩, hban0⟩ := h
  rw [List.all_eq_true] at hall0
  have hdws : hasDoubleWS s.toList = false := by simpa using hdws0
  have hheadF : ∀ c, s.toList.head? = some c → jsIsSpace c = false := by
    intro c hc
    rw [hc] at hhead0
    simpa using hhead0
  have hlastF : ∀ c, s.toList.getLast? = some c → jsIsSpace c = false := by
    intro c hc
    rw [hc] at hlast0
    simpa using hlast0
  have hbanF : ∀ p ∈ kwBanList, containsCIL s.toList p.toList = false := by
    rw [List.all_eq_true] at hban0
    intro p hp
    simpa using hban0 p hp
  cases effects with
  | nil => rfl
  | cons e0 es =>
    by_cases hemp : (s == "") = true
    · rw [beq_iff_eq] at hemp
      subst hemp
      rfl
    · have hne : (s == "") = false := by simpa using hemp
      have hlne : s.toList ≠ [] := by
        intro hc
        have hs : s = "" := String.ext hc
        rw [hs] at hne
        simp at hne
      have hsub : ∀ u, u <:+ s.toList → ∀ c ∈ u, plainClassChar c = true :=
        fun u hu c hc => hall0 c (hu.subset hc)
      have e1 : scanRep tryRules none s.toList = s.toList :=
        scanRep_id _ _ (fun p u hu => tryRules_class_none u (hsub u hu) p) none
      have e2 : scanRep tryUnitLine none s.toList = s.toList :=
        scanRep_id _ _ (fun p u hu => tryUnitLine_class_none u (hsub u hu) p) none
      have e3 : scanRep tryCurrentLabel none s.toList = s.toList :=
        scanRep_id _ _ (fun p u hu => tryCurrentLabel_ban_none hbanF u hu p) none
      have e4 : expandAuxF (e0 :: es) s.toList.length s.toList = (s.toList, []) :=
        expandAuxF_class_id (e0 :: es) s.toList.length s.toList hall0
      have e5 : rowAuxF (e0 :: es) s.toList.length 0 s.toList = (s.toList, []) :=
        rowAuxF_class_id (e0 :: es) s.toList.length 0 s.toList hall0
      have e6 : resolveVarsInTextL s.toList e0 = s.toList :=
        resolveVars_class_id s.toList e0 hall0
      have e7 : splitBr s.toList = [s.toList] := by
        unfold splitBr
        simpa using splitBrF_class_id s.toList.length s.toList [] hall0
      have e8 : cleanLine s.toList = s.toList :=
        cleanLine_class_id s.toList hall0 hdws hheadF hlastF
      have e9 : isGarbageLine s.toList = false :=
        isGarbageLine_class_false s.toList hall0 hheadF hlne
      have e10 : List.intercalate ("<br>".toList) [s.toList] = s.toList := by
        simp [List.intercalate]
      have e11 : scanRep tryBrRun none s.toList = s.toList :=
        scanRep_id _ _ (fun p u hu => tryBrRun_class_none u (hsub u hu) p) none
      have e12 : stripLeadBr s.toList = s.toList :=
        stripLeadBr_class_id s.toList hall0
      have e13 : stripTrailBr s.toList = s.toList :=
        stripTrailBr_class_id s.toList hall0
      have e14 : jsTrim s.toList = s.toList := jsTrim_id s.toList hheadF hlastF
      have e15 : s.toList.isEmpty = false := by
        cases hts : s.toList with
        | nil => exact absurd hts hlne
        | cons c r => rfl
      have e16 : scanRep tryNum none s.toList = s.toList :=
        scanRep_id _ _ (fun p u hu => tryNum_class_none u (hsub u hu) p) none
      have e17 : kwAllPass s.toList = (s.toList, []) := by
        unfold kwAllPass
        exact kwFold_id s.toList [] kwPatterns (tryKw_ban_none hall0 hbanF)
      have e18 : restoreScan [] s.toList = s.toList := by
        unfold restoreScan
        exact scanRep_id _ _
          (fun p u hu => tryRestore_class_none [] u (hsub u hu) p) none
      have e19 : String.mk s.toList = s := rfl
      have e20 : List.map cleanLine [s.toList] = [s.toList] := by
        rw [List.map_cons, List.map_nil, e8]
      have e21 : List.filter (fun l => !isGarbageLine l) [s.toList] = [s.toList] := by
        simp only [List.filter, e9, Bool.not_false]
      simp only [resolveTraitDesc, hne, Bool.false_eq_true, if_false,
        List.nil_append, List.append_nil, e1, e2, e3, e4, e5, e6, e7, e20, e21,
        e10, e11, e12, e13, e14, e15, e16, e17, e18, e19]

/-- C6 witness: a concrete plain description round-trips through the
resolver unchanged. -/
theorem c6_witness :
    plainTraitText ("gain strength and power".toList) = true ∧
    resolveTraitDesc "gain strength and power" [⟨2, 999, 1, []⟩] =
      ⟨"gain strength and power", []⟩ :=
  ⟨by decide,
   c6_plain_roundtrip "gain strength and power" [⟨2, 999, 1, []⟩] (by decide)⟩

/-- C6 counterexample to the original claim: the description Gain
Health holds no at-token and no markup and is already
whitespace-normalized, yet the resolver rewrites it — the keyword
colorizer wraps Health in a colorized span — so the output differs
from the input by more than whitespace normalization. -/
theorem c6_counterexample :
    (resolveTraitDesc "Gain Health" [⟨2, 999, 1, []⟩]).summary ≠
      "Gain Health" ∧
    (resolveTraitDesc "Gain Health" [⟨2, 999, 1, []⟩]).summary =
      "Gain <span style=\"color:#2dd4bf\">Health</span>" ∧
    containsS "Gain Health" "@" = false ∧
    containsS "Gain Health" "<" = false ∧
    hasDoubleWS ("Gain Health".toList) = false ∧
    jsTrim ("Gain Health".toList) = "Gain Health".toList := by decide

/-- A first-occurrence replacement with a dot-headed pattern passes
over a dot-free prefix untouched. -/
theorem replaceFirstAux_no_dot (ppat rep : List Char) :
    ∀ (stem tail : List Char), '.' ∉ stem →
      replaceFirstAux ('.' :: ppat) rep (stem ++ tail) =
        stem ++ replaceFirstAux ('.' :: ppat) rep tail := by
  intro stem
  induction stem with
  | nil => intro tail _; rfl
  | cons c stem ih =>
    intro tail hdot
    have hc : ('.' == c) = false := by
      rw [beq_eq_false_iff_ne]
      intro hcc
      exact hdot (by rw [hcc]; simp)
    have hpre : (('.' :: ppat).isPrefixOf (c :: (stem ++ tail))) = false := by
      simp [List.isPrefixOf, hc]
    rw [List.cons_append]
    simp only [replaceFirstAux, hpre, Bool.false_eq_true, if_false]
    rw [ih tail (fun hd => hdot (List.mem_cons_of_mem c hd))]
    rfl

/-- The dds-extension replace on a dot-free stem rewrites exactly the
extension. -/
theorem replaceFirstL_end_dds (stem : List Char) (hdot : '.' ∉ stem) :
    replaceFirstL (stem ++ ".dds".toList) (".dds".toList) (".png".toList) =
      stem ++ ".png".toList := by
  have hne : ((".dds".toList).isEmpty) = false := by decide
  unfold replaceFirstL
  simp only [hne, Bool.false_eq_true, if_false]
  rw [(by decide : ".dds".toList = '.' :: "dds".toList),
    replaceFirstAux_no_dot ("dds".toList) (".png".toList) stem
      ('.' :: "dds".toList) hdot]
  rw [(by decide : replaceFirstAux ('.' :: "dds".toList) (".png".toList)
    ('.' :: "dds".toList) = ".png".toList)]

/-- The tex-extension replace leaves a dot-free stem with a png
extension untouched. -/
theorem replaceFirstL_png_tex (stem : List Char) (hdot : '.' ∉ stem) :
    replaceFirstL (stem ++ ".png".toList) (".tex".toList) (".png".toList) =
      stem ++ ".png".toList := by
  have hne : ((".tex".toList).isEmpty) = false := by decide
  unfold replaceFirstL
  simp only [hne, Bool.false_eq_true, if_false]
  rw [(by decide : ".tex".toList = '.' :: "tex".toList),
    replaceFirstAux_no_dot ("tex".toList) (".png".toList) stem (".png".toList) hdot]
  rw [(by decide : replaceFirstAux ('.' :: "tex".toList) (".png".toList)
    (".png".toList) = ".png".toList)]

/-- On a lowercase dot-free stem with the dds extension, the asset
helper rewrites the extension to png under the base. -/
theorem assetUrl_dds (stem : List Char) (hdot : '.' ∉ stem)
    (hlow : lowerL stem = stem) :
    assetUrl (some (String.mk (stem ++ ".dds".toList))) =
      CDRAGON_BASE ++ "/game/" ++ String.mk (stem ++ ".png".toList) := by
  have hne : (String.mk (stem ++ ".dds".toList) == "") = false := by
    rw [beq_eq_false_iff_ne]
    intro hcc
    have hd := congrArg String.data hcc
    simp at hd
  simp only [assetUrl, hne, Bool.false_eq_true, if_false]
  have hlow2 : lowerL (String.mk (stem ++ ".dds".toList)).toList =
      stem ++ ".dds".toList := by
    show lowerL (stem ++ ".dds".toList) = stem ++ ".dds".toList
    unfold lowerL
    rw [List.map_append]
    unfold lowerL at hlow
    rw [hlow, (by decide : (".dds".toList).map Char.toLower = ".dds".toList)]
  rw [hlow2, replaceFirstL_end_dds stem hdot, replaceFirstL_png_tex stem hdot]

/-- Every asset-helper output is empty or sits under the fixed base. -/
theorem assetUrl_empty_or_base (p : Option String) :
    assetUrl p = "" ∨ startsS (assetUrl p) (CDRAGON_BASE ++ "/game/") := by
  cases p with
  | none => exact Or.inl rfl
  | some q =>
    by_cases hq : (q == "") = true
    · left
      simp [assetUrl, hq]
    · right
      have hq2 : (q == "") = false := by simpa using hq
      simp only [assetUrl, hq2, Bool.false_eq_true, if_false]
      unfold startsS
      rw [List.isPrefixOf_iff_prefix]
      refine ⟨(String.mk (replaceFirstL
        (replaceFirstL (lowerL q.toList) ".dds".toList ".png".toList)
        ".tex".toList ".png".toList)).toList, ?_⟩
      rfl

/-- Every icon field of every parsed champion — icon, tile icon,
splash and ability icon — is empty or sits under the base. -/
theorem champIcons_base (raw : List RawChampion) :
    ∀ c ∈ parseCDragonChampions raw,
      iconUnderBase c.icon ∧ iconUnderBase c.tileIcon ∧
      iconUnderBase c.splashUrl ∧ iconUnderBase c.ability.icon := by
  intro c hc
  unfold parseCDragonChampions at hc
  rw [mem_jsSortCmp, List.mem_map] at hc
  obtain ⟨r, _, rfl⟩ := hc
  exact ⟨assetUrl_empty_or_base r.icon, assetUrl_empty_or_base r.tileIcon,
    assetUrl_empty_or_base r.squareIcon,
    assetUrl_empty_or_base (r.ability.bind (fun a => a.icon))⟩

/-- Every item produced by the reference loop carries an asset-helper
icon. -/
theorem parseSetItemsAux_icon (allItems : List RawItem) :
    ∀ (refs seen : List String) (it : TFTItem),
      it ∈ parseSetItemsAux allItems refs seen →
      ∃ p, it.icon = assetUrl p := by
  intro refs
  induction refs with
  | nil =>
    intro seen it hmem
    simp [parseSetItemsAux] at hmem
  | cons ref rest ih =>
    intro seen it hmem
    simp only [parseSetItemsAux] at hmem
    split at hmem
    · exact ih seen it hmem
    · split at hmem
      · exact ih (ref :: seen) it hmem
      · split at hmem
        · exact ih (ref :: seen) it hmem
        · split at hmem
          · exact ih (ref :: seen) it hmem
          · rcases List.mem_cons.mp hmem with hit | hit
            · subst hit
              exact ⟨_, rfl⟩
            · exact ih (ref :: seen) it hit

/-- Every parsed item icon is empty or sits under the base. -/
theorem itemsIcon_base (refs : List String) (allItems : List RawItem) :
    ∀ it ∈ parseSetItems refs allItems, iconUnderBase it.icon := by
  intro it hit
  unfold parseSetItems at hit
  rw [mem_jsSortCmp] at hit
  obtain ⟨p, hp⟩ := parseSetItemsAux_icon allItems refs [] it hit
  rw [iconUnderBase, hp]
  exact assetUrl_empty_or_base p

/-- Every parsed trait icon is empty or sits under the base. -/
theorem traitsIcon_base (raw : List RawTrait) :
    ∀ t ∈ parseCDragonTraits raw, iconUnderBase t.icon := by
  intro t ht
  unfold parseCDragonTraits at ht
  rw [mem_jsSortCmp, List.mem_map] at ht
  obtain ⟨r, _, rfl⟩ := ht
  exact assetUrl_empty_or_base r.icon

/-- Every resolved augment carries an asset-helper icon. -/
theorem resolveAugment_icon (allItems : List RawItem) (ref : String)
    (a : TFTAugment) (h : resolveAugment allItems ref = some a) :
    ∃ p, a.icon = assetUrl p := by
  unfold resolveAugment at h
  split at h
  · exact absurd h (by simp)
  · split at h
    · exact absurd h (by simp)
    · split at h
      · exact absurd h (by simp)
      · cases h
        exact ⟨_, rfl⟩

/-- Every parsed augment icon is empty or sits under the base. -/
theorem augmentsIcon_base (augRefs : List String) (allItems : List RawItem) :
    ∀ a ∈ resolveAugments augRefs allItems, iconUnderBase a.icon := by
  intro a ha
  unfold resolveAugments at ha
  rw [mem_jsSortCmp, List.mem_filterMap] at ha
  obtain ⟨ref, _, hres⟩ := ha
  obtain ⟨p, hp⟩ := resolveAugment_icon allItems ref a hres
  rw [iconUnderBase, hp]
  exact assetUrl_empty_or_base p

/-- C10. The asset-URL helper is total: absent and empty paths give
the empty string and every other output carries the fixed base
prefix, so every icon field of every parsed entity — champion icon,
tile icon, splash and ability icon, item icon, trait icon and augment
icon — is empty or a URL under the base; and on a lowercase dot-free
stem with the dds extension the extension is rewritten to png. The
original claim that the dds or tex extension is always rewritten is
refuted by the counterexample theorem: the replacement targets the
first occurrence, not the extension. -/
theorem c10_asset_url (p : Option String) (rawC : List RawChampion)
    (itemRefs : List String) (allItems : List RawItem)
    (rawT : List RawTrait) (augRefs : List String)
    (stem : List Char) (hdot : '.' ∉ stem) (hlow : lowerL stem = stem) :
    assetUrl none = "" ∧ assetUrl (some "") = "" ∧
    (assetUrl p = "" ∨ startsS (assetUrl p) (CDRAGON_BASE ++ "/game/")) ∧
    (∀ c ∈ parseCDragonChampions rawC,
      iconUnderBase c.icon ∧ iconUnderBase c.tileIcon ∧
      iconUnderBase c.splashUrl ∧ iconUnderBase c.ability.icon) ∧
    (∀ it ∈ parseSetItems itemRefs allItems, iconUnderBase it.icon) ∧
    (∀ t ∈ parseCDragonTraits rawT, iconUnderBase t.icon) ∧
    (∀ a ∈ resolveAugments augRefs allItems, iconUnderBase a.icon) ∧
    assetUrl (some (String.mk (stem ++ ".dds".toList))) =
      CDRAGON_BASE ++ "/game/" ++ String.mk (stem ++ ".png".toList) :=
  ⟨rfl, rfl, assetUrl_empty_or_base p, champIcons_base rawC,
    itemsIcon_base itemRefs allItems, traitsIcon_base rawT,
    augmentsIcon_base augRefs allItems, assetUrl_dds stem hdot hlow⟩

/-- C10 witness: the amended statement at a concrete path, concrete
entity inputs and a concrete stem. -/
theorem c10_witness :
    ('.' ∉ ("icon".toList) ∧ lowerL ("icon".toList) = "icon".toList) ∧
    (assetUrl none = "" ∧ assetUrl (some "") = "" ∧
     (assetUrl (some "ASSETS/Ux/TFT/Icon.TEX") = "" ∨
      startsS (assetUrl (some "ASSETS/Ux/TFT/Icon.TEX"))
        (CDRAGON_BASE ++ "/game/")) ∧
     (∀ c ∈ parseCDragonChampions [sampleRawChampion],
        iconUnderBase c.icon ∧ iconUnderBase c.tileIcon ∧
        iconUnderBase c.splashUrl ∧ iconUnderBase c.ability.icon) ∧
     (∀ it ∈ parseSetItems ["TFT_Item_BFSword"] [], iconUnderBase it.icon) ∧
     (∀ t ∈ parseCDragonTraits [noThresholdTrait], iconUnderBase t.icon) ∧
     (∀ a ∈ resolveAugments ["TFT_Aug_One"] [], iconUnderBase a.icon) ∧
     assetUrl (some (String.mk ("icon".toList ++ ".dds".toList))) =
       CDRAGON_BASE ++ "/game/" ++ String.mk ("icon".toList ++ ".png".toList)) :=
  ⟨⟨by decide, by decide⟩,
   c10_asset_url (some "ASSETS/Ux/TFT/Icon.TEX") [sampleRawChampion]
     ["TFT_Item_BFSword"] [] [noThresholdTrait] ["TFT_Aug_One"]
     ("icon".toList) (by decide) (by decide)⟩

/-- C10 counterexample to the original claim: on the path Foo.dds.dds
the replacement rewrites the first occurrence of .dds, not the
extension, so the output ends in .dds and not in .png. -/
theorem c10_counterexample :
    assetUrl (some "Foo.dds.dds") = CDRAGON_BASE ++ "/game/foo.png.dds" ∧
    endsL ((assetUrl (some "Foo.dds.dds")).toList) (".png".toList) = false ∧
    endsL ((assetUrl (some "Foo.dds.dds")).toList) (".dds".toList) = true := by
  decide

end Scouted
